import Mathlib

/-!
Verification of the monkey_rs bytecode compiler and stack VM.

The Rust sources embedded here are `src/compiler/mod.rs` and `src/vm/mod.rs`.
The repository modules `compiler/code.rs` (the `Bytes` buffer),
`compiler/instructions.rs` (`Instruction`, `OpCode`), `compiler/symbol_table.rs`,
`ast` and `eval/object.rs` (`Object`) are not present in the sources; those
parts are modelled from the specification (sections 3, 4.1-4.3 and 6), as
marked on each definition.
-/

namespace Monkey

/-- Modelled from the spec: the opcode set of `compiler/instructions.rs`
(spec section 4.1).  Byte values are implementation-defined but stable; `tru`, `fls`
and `ret` stand for the source's `True`, `False` and `Return` variants. -/
inductive OpCode where
  | constant
  | pop
  | add
  | sub
  | mul
  | div
  | greater
  | eq
  | notEq
  | minus
  | bang
  | tru
  | fls
  | jump
  | jumpNotTrue
  | setGlobal
  | getGlobal
  | setLocal
  | getLocal
  | getBuiltin
  | array
  | hash
  | index
  | call
  | returnValue
  | ret
  deriving DecidableEq, Repr

/-- Modelled from the spec: the number of `u16` operands of each opcode
(spec section 4.1 operand-width table). -/
def OpCode.width : OpCode → Nat
  | .constant => 1
  | .jump => 1
  | .jumpNotTrue => 1
  | .setGlobal => 1
  | .getGlobal => 1
  | .setLocal => 1
  | .getLocal => 1
  | .getBuiltin => 1
  | .array => 1
  | .hash => 1
  | .call => 1
  | _ => 0

/-- Modelled from the spec: the stable byte value of each opcode. -/
def OpCode.byte : OpCode → Nat
  | .constant => 0
  | .pop => 1
  | .add => 2
  | .sub => 3
  | .mul => 4
  | .div => 5
  | .greater => 6
  | .eq => 7
  | .notEq => 8
  | .minus => 9
  | .bang => 10
  | .tru => 11
  | .fls => 12
  | .jump => 13
  | .jumpNotTrue => 14
  | .setGlobal => 15
  | .getGlobal => 16
  | .setLocal => 17
  | .getLocal => 18
  | .getBuiltin => 19
  | .array => 20
  | .hash => 21
  | .index => 22
  | .call => 23
  | .returnValue => 24
  | .ret => 25

/-- Modelled from the spec: decoding one opcode byte (inverse of `OpCode.byte`);
an unknown byte has no decoding and makes the VM read panic. -/
def byteToOp : Nat → Option OpCode
  | 0 => some .constant
  | 1 => some .pop
  | 2 => some .add
  | 3 => some .sub
  | 4 => some .mul
  | 5 => some .div
  | 6 => some .greater
  | 7 => some .eq
  | 8 => some .notEq
  | 9 => some .minus
  | 10 => some .bang
  | 11 => some .tru
  | 12 => some .fls
  | 13 => some .jump
  | 14 => some .jumpNotTrue
  | 15 => some .setGlobal
  | 16 => some .getGlobal
  | 17 => some .setLocal
  | 18 => some .getLocal
  | 19 => some .getBuiltin
  | 20 => some .array
  | 21 => some .hash
  | 22 => some .index
  | 23 => some .call
  | 24 => some .returnValue
  | 25 => some .ret
  | _ => none

/-- Modelled from the spec: `Instruction` of `compiler/instructions.rs`:
an opcode together with its (still unencoded) operand words
(`Instruction::new(op, operands)`). -/
structure Instruction where
  op : OpCode
  operands : List Nat
  deriving DecidableEq, Repr

/-- Mirrors `Instruction::new`. -/
def Instruction.new (op : OpCode) (operands : List Nat) : Instruction :=
  ⟨op, operands⟩

/-- Modelled from the spec: the sentinel "null instruction" `Instruction::null()`
is `Constant 0`, which loads the `Null` constant (spec section 4.1). -/
def Instruction.null : Instruction :=
  ⟨.constant, [0]⟩

/-- Byte size of an encoded instruction: one opcode byte plus two bytes per
`u16` operand. -/
def Instruction.size (i : Instruction) : Nat :=
  1 + 2 * i.op.width

/-- Big-endian byte encoding of one `u16` operand (spec section 4.1). -/
def encodeU16 (n : Nat) : List Nat :=
  [n / 256 % 256, n % 256]

/-- Byte encoding of an instruction: opcode byte followed by exactly
`op.width` big-endian `u16` operands (missing operands encode as 0,
surplus operands are dropped). -/
def Instruction.encode (i : Instruction) : List Nat :=
  i.op.byte :: (List.take i.op.width (i.operands ++ List.replicate i.op.width 0)).flatMap encodeU16

/-- Modelled from the spec: the `Bytes` instruction buffer of `compiler/code.rs`.
The spec describes a contiguous byte buffer with append, typed read,
point-patch (operand width must match) and remove-at-offset, all of which are
instruction-aligned; the buffer is therefore kept as the list of its
instructions, with its byte form given by `Bytes.toBytes` and byte length by
`Bytes.len`. -/
structure Bytes where
  data : List Instruction
  deriving DecidableEq, Repr

/-- Byte length of an instruction list. -/
def byteLenL (l : List Instruction) : Nat :=
  (l.map Instruction.size).sum

/-- Mirrors `Bytes::len()` (the byte length of the buffer; all offsets and
jump targets are byte offsets). -/
def Bytes.len (b : Bytes) : Nat :=
  byteLenL b.data

/-- Mirrors `Bytes::push(i)`: append one encoded instruction. -/
def Bytes.push (b : Bytes) (i : Instruction) : Bytes :=
  ⟨b.data ++ [i]⟩

/-- The raw byte form of the buffer (what the VM reads). -/
def Bytes.toBytes (b : Bytes) : List Nat :=
  b.data.flatMap Instruction.encode

/-- Helper for `Bytes.removeAt`: delete the instruction starting at byte
offset `pos`. -/
def removeAux : List Instruction → Nat → List Instruction
  | [], _ => []
  | i :: rest, pos => if pos = 0 then rest else i :: removeAux rest (pos - i.size)

/-- Mirrors `Bytes::remove(pos)` (spec: remove-at-offset, used only during
peephole rewriting of the tail). -/
def Bytes.removeAt (b : Bytes) (pos : Nat) : Bytes :=
  ⟨removeAux b.data pos⟩

/-- Helper for `Bytes.patchAt`: overwrite the instruction starting at byte
offset `pos` (spec: point-patch; operand width must match). -/
def patchAux : List Instruction → Nat → Instruction → List Instruction
  | [], _, _ => []
  | j :: rest, pos, i => if pos = 0 then i :: rest else j :: patchAux rest (pos - j.size) i

/-- Mirrors `Bytes::patch(pos, i)`. -/
def Bytes.patchAt (b : Bytes) (pos : Nat) (i : Instruction) : Bytes :=
  ⟨patchAux b.data pos i⟩

/-- Modelled from the spec: the runtime value model `Object` of
`eval/object.rs` (spec section 3): a tagged sum with structural equality.
`CompiledFunc` carries its own instruction stream, local count and parameter
count. -/
inductive Object where
  | integer (x : Int)
  | bool (b : Bool)
  | string (s : String)
  | null
  | array (elements : List Object)
  | hash (pairs : List (Object × Object))
  | compiledFunc (instructions : Bytes) (locals : Nat) (params : Nat)
  | builtin (idx : Nat)
  | ret (value : Object)

/-- Modelled from the spec: `Object::kind()`, the kind name of a value
(used for same-kind tests and error messages). -/
def Object.kind : Object → String
  | .integer _ => "INTEGER"
  | .bool _ => "BOOLEAN"
  | .string _ => "STRING"
  | .null => "NULL"
  | .array _ => "ARRAY"
  | .hash _ => "HASH"
  | .compiledFunc _ _ _ => "FUNCTION"
  | .builtin _ => "BUILTIN"
  | .ret _ => "RETURN"

mutual

/-- Modelled from the spec: structural equality of `Object` values
(derived `PartialEq` in the source; spec section 3). -/
def Object.beq : Object → Object → Bool
  | .integer a, .integer b => a == b
  | .bool a, .bool b => a == b
  | .string a, .string b => a == b
  | .null, .null => true
  | .array a, .array b => Object.beqList a b
  | .hash a, .hash b => Object.beqPairs a b
  | .compiledFunc i1 l1 p1, .compiledFunc i2 l2 p2 => i1 == i2 && l1 == l2 && p1 == p2
  | .builtin a, .builtin b => a == b
  | .ret a, .ret b => Object.beq a b
  | _, _ => false

/-- Element-wise structural equality of object lists. -/
def Object.beqList : List Object → List Object → Bool
  | [], [] => true
  | a :: as_, b :: bs => Object.beq a b && Object.beqList as_ bs
  | _, _ => false

/-- Pair-wise structural equality of object pair lists. -/
def Object.beqPairs : List (Object × Object) → List (Object × Object) → Bool
  | [], [] => true
  | (k1, v1) :: as_, (k2, v2) :: bs => Object.beq k1 k2 && Object.beq v1 v2 && Object.beqPairs as_ bs
  | _, _ => false

end

/-- Modelled from the spec: the display form of a value (`impl Display for
Object` in `eval/object.rs`), used only inside VM error messages. -/
def Object.display : Object → String
  | .integer x => toString x
  | .bool b => toString b
  | .string s => s
  | .null => "null"
  | .array _ => "array"
  | .hash _ => "hash"
  | .compiledFunc _ _ _ => "compiled function"
  | .builtin _ => "builtin"
  | .ret _ => "return"

/-- Modelled from the spec: the display form of an opcode (`impl Display for
OpCode` in `compiler/instructions.rs`), used inside the VM's
`unknown operation: <left> <op> <right>` message. -/
def OpCode.display : OpCode → String
  | .add => "+"
  | .sub => "-"
  | .mul => "*"
  | .div => "/"
  | .greater => ">"
  | .eq => "=="
  | .notEq => "!="
  | op => toString op.byte

/-- Mirrors `Bytecode` (compiler/mod.rs): the instruction stream together
with the constant pool. -/
structure Bytecode where
  instructions : Bytes
  constants : List Object

/-- Mirrors `STACK_SIZE` (vm/mod.rs line 8). -/
def STACK_SIZE : Nat := 2048

/-- Mirrors `struct Vm` (vm/mod.rs): instruction bytes, constants, the
preallocated value stack and the stack pointer (`sp` points to the next free
slot). -/
structure Vm where
  instructions : List Nat
  constants : List Object
  stack : List Object
  sp : Nat

/-- Mirrors `Vm::new`: the stack holds `STACK_SIZE` preallocated `Null`
slots and `sp` starts at 0. -/
def Vm.new (b : Bytecode) : Vm :=
  { instructions := b.instructions.toBytes
    constants := b.constants
    stack := List.replicate STACK_SIZE Object.null
    sp := 0 }

/-- Mirrors `Vm::last_popped`: the slot at `sp` (preserved in place by `pop`). -/
def Vm.lastPopped (v : Vm) : Object :=
  v.stack.getD v.sp Object.null

/-- Outcome of running VM code: `ok` with the final machine state, a VM
error on the `Result` channel (`Err(String)` in the source), or a Rust
panic (`todo!()`, index out of bounds, stack-pointer underflow, division
by zero). -/
inductive RunRes where
  | ok (v : Vm)
  | err (e : String)
  | panic

/-- Mirrors `Vm::push` (vm/mod.rs lines 76-84): with `sp < STACK_SIZE` the
value is stored at slot `sp` and `sp` is incremented; otherwise the machine
is left unchanged and the error string `Stack overflow` is returned. -/
def Vm.push (v : Vm) (obj : Object) : Except String Vm :=
  if v.sp ≥ STACK_SIZE then
    .error "Stack overflow"
  else
    .ok { v with stack := v.stack.set v.sp obj, sp := v.sp + 1 }

/-- Mirrors `Vm::pop` (vm/mod.rs lines 86-90): reads the slot below `sp` and
decrements `sp`; with `sp = 0` the source's `sp - 1` underflows and the
slot access panics, modelled as `none`. -/
def Vm.pop (v : Vm) : Option (Object × Vm) :=
  if v.sp = 0 then
    none
  else
    some (v.stack.getD (v.sp - 1) Object.null, { v with sp := v.sp - 1 })

/-- Lifts a push inside `run`'s loop body to a `RunRes`. -/
def pushRes (r : Except String Vm) : RunRes :=
  match r with
  | .ok v => .ok v
  | .error e => .err e

/-- Mirrors `Vm::execute_bin_op` (vm/mod.rs lines 92-114): pop right, pop
left; two integers compute arithmetic/comparison.  The source's integers
are `i64` (spec section 3), so its `left / right` panics both on a zero
divisor and, by signed-overflow, at `left = i64::MIN, right = -1` (`-2^63 /
-1 = 2^63` is not an `i64`); every other truncating quotient of in-range
operands is again in range, so the quotient is returned exactly.  Two
values of the same kind support `Eq`/`NotEq` by structural equality; every
other combination produces `unknown operation: <left> <op> <right>`. -/
def Vm.executeBinOp (v : Vm) (op : OpCode) : RunRes :=
  match v.pop with
  | none => .panic
  | some (right, v1) =>
    match v1.pop with
    | none => .panic
    | some (left, v2) =>
      match left, right with
      | .integer l, .integer r =>
        match op with
        | .add => pushRes (v2.push (.integer (l + r)))
        | .sub => pushRes (v2.push (.integer (l - r)))
        | .mul => pushRes (v2.push (.integer (l * r)))
        | .div =>
          if r = 0 ∨ (l = -(2 ^ 63) ∧ r = -1) then .panic
          else pushRes (v2.push (.integer (Int.tdiv l r)))
        | .eq => pushRes (v2.push (.bool (l == r)))
        | .notEq => pushRes (v2.push (.bool (l != r)))
        | .greater => pushRes (v2.push (.bool (decide (l > r))))
        | _ => .panic
      | _, _ =>
        if left.kind = right.kind then
          match op with
          | .eq => pushRes (v2.push (.bool (Object.beq left right)))
          | .notEq => pushRes (v2.push (.bool (!Object.beq left right)))
          | _ => .err ("unknown operation: " ++ left.display ++ " " ++ op.display ++ " " ++ right.display)
        else
          .err ("unknown operation: " ++ left.display ++ " " ++ op.display ++ " " ++ right.display)

/-- Reads a big-endian `u16` at byte offset `pos`. -/
def readU16 (bytes : List Nat) (pos : Nat) : Nat :=
  bytes.getD pos 0 * 256 + bytes.getD (pos + 1) 0

/-- Mirrors the body of `Vm::run`'s `while` loop (vm/mod.rs lines 30-60).
The instruction bytes and constants are never written by the loop (`push`
and `pop` only touch `stack`/`sp`), so they are carried as fixed parameters
and the mutable stack state is threaded through.  Opcodes other than
`Constant`, the seven binary operations, `Pop`, `True` and `False` hit the
source's `_ => todo!()` arm, which panics. -/
def runLoop (ins : List Nat) (consts : List Object) (stack : List Object) (sp : Nat)
    (ip : Nat) : RunRes :=
  if _h : ip < ins.length then
    match byteToOp (ins.getD ip 0) with
    | none => .panic
    | some op =>
      match op with
      | .constant =>
        let constIdx := readU16 ins (ip + 1)
        if constIdx < consts.length then
          match Vm.push ⟨ins, consts, stack, sp⟩ (consts.getD constIdx Object.null) with
          | .error e => .err e
          | .ok v' => runLoop ins consts v'.stack v'.sp (ip + 3)
        else
          .panic
      | .add | .sub | .mul | .div | .greater | .eq | .notEq =>
        match Vm.executeBinOp ⟨ins, consts, stack, sp⟩ op with
        | .ok v' => runLoop ins consts v'.stack v'.sp (ip + 1)
        | .err e => .err e
        | .panic => .panic
      | .pop =>
        match Vm.pop ⟨ins, consts, stack, sp⟩ with
        | none => .panic
        | some (_, v') => runLoop ins consts v'.stack v'.sp (ip + 1)
      | .tru =>
        match Vm.push ⟨ins, consts, stack, sp⟩ (.bool true) with
        | .error e => .err e
        | .ok v' => runLoop ins consts v'.stack v'.sp (ip + 1)
      | .fls =>
        match Vm.push ⟨ins, consts, stack, sp⟩ (.bool false) with
        | .error e => .err e
        | .ok v' => runLoop ins consts v'.stack v'.sp (ip + 1)
      | _ => .panic
  else
    .ok ⟨ins, consts, stack, sp⟩
  termination_by ins.length - ip
  decreasing_by all_goals omega

/-- Mirrors `Vm::run`: the loop starting at `ip = 0`. -/
def Vm.run (v : Vm) : RunRes :=
  runLoop v.instructions v.constants v.stack v.sp 0

/-- Modelled from the spec: the token kinds of `lexer/token.rs` (the file is
not under src; the variants are those produced by `lexer/mod.rs`).  Keyword
variants carry a `K` suffix where the source name is a Lean keyword. -/
inductive TokenType where
  | illegal
  | eof
  | assign
  | plus
  | minus
  | star
  | slash
  | bang
  | lt
  | gt
  | eq
  | notEq
  | lparen
  | rparen
  | lbrace
  | rbrace
  | lbracket
  | rbracket
  | comma
  | colon
  | semicolon
  | letK
  | fnK
  | ifK
  | elseK
  | returnK
  | trueK
  | falseK
  | ident
  | number
  | string
  deriving DecidableEq, Repr

mutual

/-- Modelled from the spec: the `Expression` AST (spec section 6); `prefixE`
and `infixE` stand for the source's `Prefix`/`Infix` variants, `ifE` for `If`. -/
inductive Expression where
  | ident (name : String)
  | number (x : Int)
  | string (s : String)
  | prefixE (operator : TokenType) (right : Expression)
  | infixE (operator : TokenType) (left : Expression) (right : Expression)
  | bool (b : Bool)
  | ifE (condition : Expression) (ifBranch : List Statement) (elseBranch : Option (List Statement))
  | func (params : List String) (body : List Statement)
  | call (f : Expression) (arguments : List Expression)
  | array (elements : List Expression)
  | index (left : Expression) (idx : Expression)
  | hash (pairs : List (Expression × Expression))

/-- Modelled from the spec: the `Statement` AST (spec section 6); `letS` and
`ret` stand for the source's `Let`/`Return` variants. -/
inductive Statement where
  | letS (ident : String) (expr : Expression)
  | ret (expr : Expression)
  | expr (e : Expression)

end

/-- Modelled from the spec: a `Program` is an ordered list of statements. -/
structure Program where
  statements : List Statement

/-- Modelled from the spec: the symbol scope kinds of
`compiler/symbol_table.rs` (spec section 4.3). -/
inductive SymScope where
  | global
  | local
  | builtin
  deriving DecidableEq, Repr

/-- Modelled from the spec: a resolved symbol `{ name, scope-kind, index }`. -/
structure Symbol where
  name : String
  scope : SymScope
  index : Nat
  deriving DecidableEq, Repr

/-- Modelled from the spec: one symbol-table frame: a name-to-symbol map
(most recent first) plus the per-scope-kind slot counters. -/
structure Frame where
  store : List (String × Symbol)
  numDefs : Nat
  numBuiltins : Nat
  deriving DecidableEq, Repr

/-- Modelled from the spec: the lexically nested symbol table is the chain of
frames, innermost first; the last frame is the global frame.  `SymbolTable::
new_enclosed` conses a fresh frame, `outer.take()` at scope exit drops it. -/
def SymbolTable := List Frame

/-- Modelled from the spec: the empty frame (`SymbolTable::empty`). -/
def Frame.empty : Frame :=
  ⟨[], 0, 0⟩

/-- Modelled from the spec: `define(name)` inserts into the current frame;
scope-kind is `Global` iff the frame is the outermost, else `Local`; the
index is the next free slot of the frame's definition counter. -/
def stDefine (st : SymbolTable) (name : String) : SymbolTable × Symbol :=
  match st with
  | [] => ([], ⟨name, .global, 0⟩)
  | f :: rest =>
    let scope := if rest.isEmpty then SymScope.global else SymScope.local
    let sym : Symbol := ⟨name, scope, f.numDefs⟩
    (⟨(name, sym) :: f.store, f.numDefs + 1, f.numBuiltins⟩ :: rest, sym)

/-- Modelled from the spec: `define_builtin(name)` registers a `Builtin`
symbol in the global frame; builtin indices are dense and start at 0. -/
def stDefineBuiltin (st : SymbolTable) (name : String) : SymbolTable :=
  match st with
  | [] => []
  | f :: rest =>
    let sym : Symbol := ⟨name, .builtin, f.numBuiltins⟩
    ⟨(name, sym) :: f.store, f.numDefs, f.numBuiltins + 1⟩ :: rest

/-- Modelled from the spec: `resolve(name)` searches the frames innermost to
outermost and returns the first match. -/
def stResolve (st : SymbolTable) (name : String) : Option Symbol :=
  match st with
  | [] => none
  | f :: rest =>
    match f.store.lookup name with
    | some sym => some sym
    | none => stResolve rest name

/-- Modelled from the spec: the number of symbols defined in the current
frame (`symbol_table.symbols()`, used as the local count of a function). -/
def stSymbols (st : SymbolTable) : Nat :=
  match st with
  | [] => 0
  | f :: _ => f.numDefs

/-- Mirrors `Emmited` (compiler/mod.rs, the source's spelling): the opcode
and byte position of an emitted instruction. -/
structure Emmited where
  opcode : OpCode
  pos : Nat
  deriving DecidableEq, Repr

/-- Mirrors `Scope` (compiler/mod.rs): a per-scope instruction buffer plus
the two most recently emitted instructions. -/
structure Scope where
  instructions : Bytes := ⟨[]⟩
  last : Option Emmited := none
  prev : Option Emmited := none
  deriving DecidableEq, Repr

/-- Mirrors `Compiler` (compiler/mod.rs).  The scope stack is kept innermost
first (`scopes.head` is the source's `scopes.last()`). -/
structure Compiler where
  constants : List Object
  symbolTable : SymbolTable
  scopes : List Scope

/-- Mirrors `Compiler::default()`: constant 0 is `Null`, the six builtins
are registered in order, and there is a single default scope. -/
def Compiler.default : Compiler :=
  { constants := [Object.null]
    symbolTable := ["len", "first", "last", "rest", "push", "puts"].foldl stDefineBuiltin [Frame.empty]
    scopes := [{}] }

/-- The current scope (`Compiler::current_scope`; the source panics when no
scope exists, a state no compilation reaches). -/
def Compiler.currentScope (c : Compiler) : Scope :=
  c.scopes.headD {}

/-- Mirrors `Compiler::emit`: record `prev`/`last` and append the
instruction, returning its byte position.  With an empty scope stack the
source panics; the model leaves the compiler unchanged (no compile path
reaches that state). -/
def Compiler.emit (c : Compiler) (i : Instruction) : Compiler × Nat :=
  match c.scopes with
  | [] => (c, 0)
  | s :: ss =>
    let pos := s.instructions.len
    ({ c with scopes := { instructions := s.instructions.push i
                          last := some ⟨i.op, pos⟩
                          prev := s.last } :: ss }, pos)

/-- Mirrors `Compiler::last_is`. -/
def Compiler.lastIs (c : Compiler) (op : OpCode) : Bool :=
  match c.currentScope.last with
  | some l => l.opcode = op
  | none => false

/-- Mirrors `Compiler::remove_last`: delete the instruction at the recorded
last position and demote `prev` to `last` (`prev` itself is left as is).
With no recorded last instruction the source panics; the model leaves the
compiler unchanged (every call site is guarded by `last_is`). -/
def Compiler.removeLast (c : Compiler) : Compiler :=
  match c.scopes with
  | [] => c
  | s :: ss =>
    match s.last with
    | none => c
    | some l =>
      { c with scopes := { instructions := s.instructions.removeAt l.pos
                           last := s.prev
                           prev := s.prev } :: ss }

/-- Mirrors `Compiler::patch`. -/
def Compiler.patch (c : Compiler) (pos : Nat) (i : Instruction) : Compiler :=
  match c.scopes with
  | [] => c
  | s :: ss =>
    { c with scopes := { s with instructions := s.instructions.patchAt pos i } :: ss }

/-- Mirrors `Compiler::add_constant`. -/
def Compiler.addConstant (c : Compiler) (obj : Object) : Compiler × Nat :=
  ({ c with constants := c.constants ++ [obj] }, c.constants.length)

/-- Mirrors `Compiler::enter_scope`: push a fresh scope and an enclosed
symbol-table frame. -/
def Compiler.enterScope (c : Compiler) : Compiler :=
  { c with scopes := {} :: c.scopes, symbolTable := Frame.empty :: c.symbolTable }

/-- Byte length of the current scope's instructions
(`self.instructions().len()`). -/
def Compiler.insLen (c : Compiler) : Nat :=
  c.currentScope.instructions.len

/-- Compilation failure: an error string (`Err(String)`) or a source panic
(`unreachable!` / `expect`), which never yields an `Ok`. -/
inductive Cerr where
  | msg (e : String)
  | panic
  deriving DecidableEq, Repr

/-- Mirrors `Compiler::leave_scope`: pop the current scope and restore the
outer symbol table; leaving the global symbol table or the main scope
panics. -/
def Compiler.leaveScope (c : Compiler) : Except Cerr (Scope × Compiler) :=
  match c.symbolTable with
  | [] => .error .panic
  | [_] => .error .panic
  | _ :: st =>
    match c.scopes with
    | [] => .error .panic
    | [_] => .error .panic
    | s :: ss => .ok (s, { c with scopes := ss, symbolTable := st })

/-- Mirrors the `Ident` case of `compile_expr`: resolve the name and emit
the matching `Get*` instruction (non-recursive, hence outside the mutual
block). -/
def compileIdent (c : Compiler) (name : String) : Except Cerr Compiler :=
  match stResolve c.symbolTable name with
  | none => .error (.msg ("undefined symbol: " ++ name))
  | some sym =>
    match sym.scope with
    | .global => .ok (c.emit (Instruction.new .getGlobal [sym.index])).1
    | .local => .ok (c.emit (Instruction.new .getLocal [sym.index])).1
    | .builtin => .ok (c.emit (Instruction.new .getBuiltin [sym.index])).1

/-- Mirrors the `Number` case of `compile_expr`: add the integer constant
and emit `Constant idx`. -/
def compileNumber (c : Compiler) (x : Int) : Except Cerr Compiler :=
  let p := c.addConstant (.integer x)
  .ok (p.1.emit (Instruction.new .constant [p.2])).1

/-- Mirrors the `String` case of `compile_expr`. -/
def compileString (c : Compiler) (s : String) : Except Cerr Compiler :=
  let p := c.addConstant (.string s)
  .ok (p.1.emit (Instruction.new .constant [p.2])).1

/-- Mirrors the `Bool` case of `compile_expr`: emit `True`/`False` with no
constant slot. -/
def compileBool (c : Compiler) (b : Bool) : Except Cerr Compiler :=
  match b with
  | true => .ok (c.emit (Instruction.new .tru [])).1
  | false => .ok (c.emit (Instruction.new .fls [])).1

mutual

/-- Mirrors `Compiler::compile_stmt`: dispatch on the statement kind. -/
def compileStmt (c : Compiler) : Statement → Except Cerr Compiler
  | .letS ident e => compileLet c ident e
  | .ret e => compileReturnStmt c e
  | .expr e => compileExprStmt c e
termination_by s => 4 * sizeOf s
decreasing_by all_goals (simp_wf; try simp_arith)

/-- Mirrors the `Let` case of `compile_stmt`: compile the value, define the
name and emit `SetGlobal`/`SetLocal` (a `Builtin` result is the source's
`unreachable!`). -/
def compileLet (c : Compiler) (ident : String) (e : Expression) : Except Cerr Compiler :=
  match compileExpr c e with
  | .error err => .error err
  | .ok c1 =>
    let p := stDefine c1.symbolTable ident
    let c2 : Compiler := { c1 with symbolTable := p.1 }
    match p.2.scope with
    | .global => .ok (c2.emit (Instruction.new .setGlobal [p.2.index])).1
    | .local => .ok (c2.emit (Instruction.new .setLocal [p.2.index])).1
    | .builtin => .error .panic
termination_by 4 * sizeOf e + 2
decreasing_by all_goals (simp_wf; try simp_arith)

/-- Mirrors the `Return` case of `compile_stmt`: compile the value and emit
`ReturnValue`. -/
def compileReturnStmt (c : Compiler) (e : Expression) : Except Cerr Compiler :=
  match compileExpr c e with
  | .error err => .error err
  | .ok c1 => .ok (c1.emit (Instruction.new .returnValue [])).1
termination_by 4 * sizeOf e + 2
decreasing_by all_goals (simp_wf; try simp_arith)

/-- Mirrors the `Expression` case of `compile_stmt`: compile the expression
and emit `Pop`. -/
def compileExprStmt (c : Compiler) (e : Expression) : Except Cerr Compiler :=
  match compileExpr c e with
  | .error err => .error err
  | .ok c1 => .ok (c1.emit (Instruction.new .pop [])).1
termination_by 4 * sizeOf e + 2
decreasing_by all_goals (simp_wf; try simp_arith)

/-- Mirrors `Compiler::compile_expr` (compiler/mod.rs lines 112-218):
dispatch on the expression kind. -/
def compileExpr (c : Compiler) : Expression → Except Cerr Compiler
  | .ident name => compileIdent c name
  | .number x => compileNumber c x
  | .string s => compileString c s
  | .prefixE op r => compilePrefixOp c op r
  | .infixE op l r => compileInfixOp c op l r
  | .bool b => compileBool c b
  | .ifE cond ifBranch elseBranch => compileIf c cond ifBranch elseBranch
  | .func params body => compileFuncConst c params body
  | .call f arguments => compileCall c f arguments
  | .array elements => compileArrayExpr c elements
  | .index l idx => compileIndexExpr c l idx
  | .hash pairs => compileHashExpr c pairs
termination_by e => 4 * sizeOf e
decreasing_by all_goals (simp_wf; try simp_arith)

/-- Mirrors the `If` case of `compile_expr` (compiler/mod.rs lines 151-182):
condition, `JumpNotTrue 9999` placeholder, then-block with a trailing `Pop`
removed, `Jump 9999` placeholder, patch the `JumpNotTrue` to the current
offset, then the else-block (same `Pop` removal) or the `Constant 0`
sentinel, and finally patch the `Jump` to the current offset. -/
def compileIf (c : Compiler) (cond : Expression) (ifBranch : List Statement)
    (elseBranch : Option (List Statement)) : Except Cerr Compiler :=
  match compileExpr c cond with
  | .error err => .error err
  | .ok c1 =>
    let q := c1.emit (Instruction.new .jumpNotTrue [9999])
    match compileBlock q.1 ifBranch with
    | .error err => .error err
    | .ok c3 =>
      let c4 := if c3.lastIs .pop then c3.removeLast else c3
      let q2 := c4.emit (Instruction.new .jump [9999])
      let c6 := q2.1.patch q.2 (Instruction.new .jumpNotTrue [q2.1.insLen])
      compileIfElse c6 q2.2 elseBranch
termination_by 4 * (sizeOf cond + sizeOf ifBranch + sizeOf elseBranch) + 2
decreasing_by all_goals (simp_wf; try simp_arith)

/-- The tail of the `If` case of `compile_expr`: the else-block (with the
same trailing-`Pop` removal) or the `Constant 0` sentinel, followed by the
patch of the `Jump` placeholder at `jmpElse` to the current offset. -/
def compileIfElse (c6 : Compiler) (jmpElse : Nat) (elseBranch : Option (List Statement)) :
    Except Cerr Compiler :=
  match elseBranch with
  | some els =>
    match compileBlock c6 els with
    | .error err => .error err
    | .ok c7 =>
      let c8 := if c7.lastIs .pop then c7.removeLast else c7
      .ok (c8.patch jmpElse (Instruction.new .jump [c8.insLen]))
  | none =>
    let q3 := c6.emit Instruction.null
    .ok (q3.1.patch jmpElse (Instruction.new .jump [q3.1.insLen]))
termination_by 4 * sizeOf elseBranch + 1
decreasing_by all_goals (simp_wf; try simp_arith)

/-- Mirrors the `Func` case of `compile_expr`: compile the function literal
and emit `Constant idx` for the new `CompiledFunc` constant. -/
def compileFuncConst (c : Compiler) (params : List String) (body : List Statement) :
    Except Cerr Compiler :=
  match compileFunc c params body with
  | .error err => .error err
  | .ok p => .ok (p.1.emit (Instruction.new .constant [p.2])).1
termination_by 4 * sizeOf body + 2
decreasing_by all_goals (simp_wf; try simp_arith)

/-- Mirrors the `Call` case of `compile_expr`: callee, then the arguments
left to right, then `Call argc`. -/
def compileCall (c : Compiler) (f : Expression) (arguments : List Expression) :
    Except Cerr Compiler :=
  match compileExpr c f with
  | .error err => .error err
  | .ok c1 =>
    match compileExprList c1 arguments with
    | .error err => .error err
    | .ok c2 => .ok (c2.emit (Instruction.new .call [arguments.length])).1
termination_by 4 * (sizeOf f + sizeOf arguments) + 2
decreasing_by all_goals (simp_wf; try simp_arith)

/-- Mirrors the `Array` case of `compile_expr`: the elements left to right,
then `Array n`. -/
def compileArrayExpr (c : Compiler) (elements : List Expression) : Except Cerr Compiler :=
  match compileExprList c elements with
  | .error err => .error err
  | .ok c1 => .ok (c1.emit (Instruction.new .array [elements.length])).1
termination_by 4 * sizeOf elements + 2
decreasing_by all_goals (simp_wf; try simp_arith)

/-- Mirrors the `Index` case of `compile_expr`: the container, the index,
then `Index`. -/
def compileIndexExpr (c : Compiler) (l : Expression) (idx : Expression) : Except Cerr Compiler :=
  match compileExpr c l with
  | .error err => .error err
  | .ok c1 =>
    match compileExpr c1 idx with
    | .error err => .error err
    | .ok c2 => .ok (c2.emit (Instruction.new .index [])).1
termination_by 4 * (sizeOf l + sizeOf idx) + 2
decreasing_by all_goals (simp_wf; try simp_arith)

/-- Mirrors the `Hash` case of `compile_expr`: each pair in input order,
keys before values, then `Hash n_pairs`. -/
def compileHashExpr (c : Compiler) (pairs : List (Expression × Expression)) :
    Except Cerr Compiler :=
  match compilePairList c pairs with
  | .error err => .error err
  | .ok c1 => .ok (c1.emit (Instruction.new .hash [pairs.length])).1
termination_by 4 * sizeOf pairs + 2
decreasing_by all_goals (simp_wf; try simp_arith)

/-- Mirrors `Compiler::compile_block`. -/
def compileBlock (c : Compiler) : List Statement → Except Cerr Compiler
  | [] => .ok c
  | s :: rest => compileBlockCons c s rest
termination_by l => 4 * sizeOf l
decreasing_by all_goals (simp_wf; try simp_arith)

/-- One step of `compile_block`: compile the head statement, then the rest. -/
def compileBlockCons (c : Compiler) (s : Statement) (rest : List Statement) :
    Except Cerr Compiler :=
  match compileStmt c s with
  | .error err => .error err
  | .ok c1 => compileBlock c1 rest
termination_by 4 * (sizeOf s + sizeOf rest) + 2
decreasing_by all_goals (simp_wf; try simp_arith)

/-- Mirrors the argument loop of the `Call` case and the element loop of the
`Array` case of `compile_expr`. -/
def compileExprList (c : Compiler) : List Expression → Except Cerr Compiler
  | [] => .ok c
  | e :: rest => compileExprListCons c e rest
termination_by l => 4 * sizeOf l
decreasing_by all_goals (simp_wf; try simp_arith)

/-- One step of the expression-list loop. -/
def compileExprListCons (c : Compiler) (e : Expression) (rest : List Expression) :
    Except Cerr Compiler :=
  match compileExpr c e with
  | .error err => .error err
  | .ok c1 => compileExprList c1 rest
termination_by 4 * (sizeOf e + sizeOf rest) + 2
decreasing_by all_goals (simp_wf; try simp_arith)

/-- Mirrors the pair loop of the `Hash` case of `compile_expr` (key before
value, in input order). -/
def compilePairList (c : Compiler) : List (Expression × Expression) → Except Cerr Compiler
  | [] => .ok c
  | (k, v) :: rest => compilePairListCons c k v rest
termination_by l => 4 * sizeOf l
decreasing_by all_goals (simp_wf; try simp_arith)

/-- One step of the hash-pair loop. -/
def compilePairListCons (c : Compiler) (k : Expression) (v : Expression)
    (rest : List (Expression × Expression)) : Except Cerr Compiler :=
  match compileExpr c k with
  | .error err => .error err
  | .ok c1 =>
    match compileExpr c1 v with
    | .error err => .error err
    | .ok c2 => compilePairList c2 rest
termination_by 4 * (sizeOf k + sizeOf v + sizeOf rest) + 2
decreasing_by all_goals (simp_wf; try simp_arith)

/-- Mirrors `Compiler::compile_prefix` (the source's `unreachable!` on other
operators is the panic error). -/
def compilePrefixOp (c : Compiler) (op : TokenType) (right : Expression) : Except Cerr Compiler :=
  match compileExpr c right with
  | .error err => .error err
  | .ok c1 =>
    match op with
    | .minus => .ok (c1.emit (Instruction.new .minus [])).1
    | .bang => .ok (c1.emit (Instruction.new .bang [])).1
    | _ => .error .panic
termination_by 4 * sizeOf right + 1
decreasing_by all_goals (simp_wf; try simp_arith)

/-- Mirrors `Compiler::compile_infix`: `<` dispatches to the reversed form,
everything else to the normal form. -/
def compileInfixOp (c : Compiler) (op : TokenType) (l r : Expression) : Except Cerr Compiler :=
  match op with
  | .lt => compileInfixRev c op l r
  | _ => compileInfixNormal c op l r
termination_by 4 * (sizeOf l + sizeOf r) + 2
decreasing_by all_goals (simp_wf; try simp_arith)

/-- Mirrors `Compiler::compile_infix_normal`: left, then right, then the
mapped opcode. -/
def compileInfixNormal (c : Compiler) (op : TokenType) (l r : Expression) : Except Cerr Compiler :=
  match compileExpr c l with
  | .error err => .error err
  | .ok c1 =>
    match compileExpr c1 r with
    | .error err => .error err
    | .ok c2 =>
      match op with
      | .plus => .ok (c2.emit (Instruction.new .add [])).1
      | .minus => .ok (c2.emit (Instruction.new .sub [])).1
      | .star => .ok (c2.emit (Instruction.new .mul [])).1
      | .slash => .ok (c2.emit (Instruction.new .div [])).1
      | .gt => .ok (c2.emit (Instruction.new .greater [])).1
      | .eq => .ok (c2.emit (Instruction.new .eq [])).1
      | .notEq => .ok (c2.emit (Instruction.new .notEq [])).1
      | _ => .error .panic
termination_by 4 * (sizeOf l + sizeOf r) + 1
decreasing_by all_goals (simp_wf; try simp_arith)

/-- Mirrors `Compiler::compile_infix_rev`: right, then left, then `Greater`
(used for `<`; there is no distinct less-than opcode). -/
def compileInfixRev (c : Compiler) (op : TokenType) (l r : Expression) : Except Cerr Compiler :=
  match compileExpr c r with
  | .error err => .error err
  | .ok c1 =>
    match compileExpr c1 l with
    | .error err => .error err
    | .ok c2 =>
      match op with
      | .lt => .ok (c2.emit (Instruction.new .greater [])).1
      | _ => .error .panic
termination_by 4 * (sizeOf l + sizeOf r) + 1
decreasing_by all_goals (simp_wf; try simp_arith)

/-- Mirrors `Compiler::compile_func` (compiler/mod.rs lines 229-254): enter
a scope, define the parameters, compile the body, replace a trailing `Pop`
by `ReturnValue`, append `Return` when the last instruction still is not
`ReturnValue`, then leave the scope and add the `CompiledFunc` constant. -/
def compileFunc (c : Compiler) (params : List String) (body : List Statement) :
    Except Cerr (Compiler × Nat) :=
  let c1 := c.enterScope
  let c2 : Compiler := { c1 with symbolTable := params.foldl (fun st p => (stDefine st p).1) c1.symbolTable }
  match compileBlock c2 body with
  | .error err => .error err
  | .ok c3 =>
    let c4 := if c3.lastIs .pop then ((c3.removeLast).emit (Instruction.new .returnValue [])).1 else c3
    let c5 := if c4.lastIs .returnValue then c4 else (c4.emit (Instruction.new .ret [])).1
    let locals := stSymbols c5.symbolTable
    match c5.leaveScope with
    | .error err => .error err
    | .ok p =>
      let q := p.2.addConstant (.compiledFunc p.1.instructions locals params.length)
      .ok q
termination_by 4 * sizeOf body + 1
decreasing_by all_goals (simp_wf; try simp_arith)

end

/-- Mirrors `Compiler::compile`: compile the program's statements as a
block. -/
def Compiler.compile (c : Compiler) (program : Program) : Except Cerr Compiler :=
  compileBlock c program.statements

/-- Mirrors `Compiler::bytecode`: snapshot of the current scope's
instructions plus the constant pool. -/
def Compiler.bytecode (c : Compiler) : Bytecode :=
  ⟨c.currentScope.instructions, c.constants⟩

/-- Compiling a whole program on a fresh default compiler and taking the
resulting bytecode (the way the repository's tests drive the compiler). -/
def compileProgram (p : Program) : Except Cerr Bytecode :=
  match Compiler.default.compile p with
  | .ok c => .ok c.bytecode
  | .error e => .error e

/-- Running a bytecode on a fresh VM and observing `last_popped` of a
completed run (the program's observable result). -/
def runResult (b : Bytecode) : Option Object :=
  match (Vm.new b).run with
  | .ok v => some v.lastPopped
  | _ => none

/-! ### Concrete claim inputs and invariant predicates -/

/-- The AST of the source program `1 + 2` (one expression statement; the
parser is outside the compiler/VM core). -/
def addProgram : Program :=
  ⟨[.expr (.infixE .plus (.number 1) (.number 2))]⟩

/-- The bytecode the compiler is expected to produce for `1 + 2`. -/
def addBytecode : Bytecode :=
  ⟨⟨[.new .constant [1], .new .constant [2], .new .add [], .new .pop []]⟩,
   [.null, .integer 1, .integer 2]⟩

/-- The AST of the source program `if (true) { 10 }; 3333;`. -/
def ifProgram : Program :=
  ⟨[.expr (.ifE (.bool true) [.expr (.number 10)] none), .expr (.number 3333)]⟩

/-- The bytecode the compiler produces for `if (true) { 10 }; 3333;`
(byte offsets 0, 1, 4, 7, 10, 13, 14, 17; matches `compiler/test.rs`). -/
def ifBytecode : Bytecode :=
  ⟨⟨[.new .tru [], .new .jumpNotTrue [10], .new .constant [1], .new .jump [13],
     Instruction.null, .new .pop [], .new .constant [2], .new .pop []]⟩,
   [.null, .integer 10, .integer 3333]⟩

/-- The AST of the source program `1 < 2`. -/
def ltProgram : Program :=
  ⟨[.expr (.infixE .lt (.number 1) (.number 2))]⟩

/-- The bytecode the compiler produces for `1 < 2`: constants in reversed
order `[2, 1]` and a `Greater` opcode. -/
def ltBytecode : Bytecode :=
  ⟨⟨[.new .constant [1], .new .constant [2], .new .greater [], .new .pop []]⟩,
   [.null, .integer 2, .integer 1]⟩

/-- The AST of the source program `1 / 0`. -/
def divZeroProgram : Program :=
  ⟨[.expr (.infixE .slash (.number 1) (.number 0))]⟩

/-- The bytecode the compiler produces for `1 / 0`. -/
def divZeroBytecode : Bytecode :=
  ⟨⟨[.new .constant [1], .new .constant [2], .new .div [], .new .pop []]⟩,
   [.null, .integer 1, .integer 0]⟩

/-- Every `Jump`/`JumpNotTrue` operand in the list is at most `bound`. -/
def JumpsBounded (L : List Instruction) (bound : Nat) : Prop :=
  ∀ i ∈ L, (i.op = .jump ∨ i.op = .jumpNotTrue) → i.operands.headD 0 ≤ bound

/-- The final instruction of the list is `ReturnValue` or `Return`. -/
def endsRet (L : List Instruction) : Prop :=
  L.getLast?.map Instruction.op = some .returnValue ∨
    L.getLast?.map Instruction.op = some .ret

/-- The well-formedness the compiler guarantees for every `CompiledFunc`
constant: a non-empty stream ending in `ReturnValue`/`Return` whose jump
operands stay within the stream (`Object` values of any other variant are
unconstrained). -/
def FuncOk : Object → Prop
  | .compiledFunc ins _ _ =>
      ins.data ≠ [] ∧ endsRet ins.data ∧ JumpsBounded ins.data (byteLenL ins.data)
  | _ => True

/-- The instruction list of the compiler's current scope. -/
def topData (c : Compiler) : List Instruction :=
  c.currentScope.instructions.data

/-- Whether the buffer's final instruction is a `Pop`. -/
def endsPop (L : List Instruction) : Prop :=
  L.getLast?.map Instruction.op = some .pop

instance (L : List Instruction) : Decidable (endsPop L) := by
  unfold endsPop
  infer_instance

/-- The byte length of the buffer with a trailing `Pop` not counted:
the tightest length the buffer can later shrink to by the peephole
`remove_last` of a trailing `Pop`. -/
def padLenL (L : List Instruction) : Nat :=
  byteLenL L - (if endsPop L then 1 else 0)

/-! ### The compiler's standing invariant and step postconditions -/

/-- The accurate description of the final instruction of a buffer: its
opcode and the byte offset at which it starts. -/
def lastInfo (d : List Instruction) : Option Emmited :=
  match d.getLast? with
  | none => none
  | some i => some ⟨i.op, byteLenL d.dropLast⟩

/-- The scope's `last` record accurately describes its buffer. -/
def AccL (s : Scope) : Prop :=
  s.last = lastInfo s.instructions.data

/-- When the buffer ends in a `Pop`, the scope's `prev` record accurately
describes the instruction just before that `Pop`, and that instruction is
not itself a `Pop` — so `remove_last` of the trailing `Pop` leaves an
accurate `last` record and a buffer that does not end in a `Pop`. -/
def PopClause (s : Scope) : Prop :=
  endsPop s.instructions.data →
    s.prev = lastInfo s.instructions.data.dropLast ∧
    ¬ endsPop s.instructions.data.dropLast

/-- The per-scope invariant every compilation step preserves. -/
def ScopeInv (s : Scope) : Prop :=
  AccL s ∧ PopClause s

/-- Every constant in the pool is well formed (`FuncOk`). -/
def ConstOk (c : Compiler) : Prop :=
  ∀ o ∈ c.constants, FuncOk o

/-- The standing invariant of a compiler state. -/
def Cinv (c : Compiler) : Prop :=
  c.scopes ≠ [] ∧ c.symbolTable ≠ [] ∧ ScopeInv c.currentScope ∧ ConstOk c

/-- The common postcondition of one compilation step from `c` to `c'`: the
outer scopes are untouched, the symbol-table depth is preserved, the
current scope's buffer grows by exactly `Δ`, the scope invariant and the
constant-pool well-formedness hold again, and every jump operand inside
`Δ` is at most the byte length of the part of the grown buffer that no
later `remove_last` can drop (`padLenL`). -/
def CPost (c c' : Compiler) (Δ : List Instruction) : Prop :=
  c'.scopes.tail = c.scopes.tail ∧
  c'.scopes ≠ [] ∧
  c'.symbolTable.length = c.symbolTable.length ∧
  topData c' = topData c ++ Δ ∧
  ScopeInv c'.currentScope ∧
  ConstOk c' ∧
  JumpsBounded Δ (byteLenL (topData c) + padLenL Δ)

/-- Postcondition of compiling a statement, a block, an expression list or
a pair list. -/
def Advance (c c' : Compiler) : Prop :=
  ∃ Δ, CPost c c' Δ

/-- Postcondition of compiling one expression: additionally, at least one
instruction is appended and the appended run does not end in a `Pop`. -/
def AdvanceE (c c' : Compiler) : Prop :=
  ∃ Δ, CPost c c' Δ ∧ Δ ≠ [] ∧ ¬ endsPop Δ

/-- Postcondition of `compile_func`: the surrounding scope's buffer is
untouched and the constant at the returned index is a well formed compiled
function. -/
def FuncPost (c : Compiler) (p : Compiler × Nat) : Prop :=
  CPost c p.1 [] ∧
  ∃ ins locals nparams,
    p.1.constants.getD p.2 Object.null = Object.compiledFunc ins locals nparams ∧
    ins.data ≠ [] ∧ endsRet ins.data ∧ JumpsBounded ins.data (byteLenL ins.data)

/-- Postcondition of the else-half of the `If` lowering, for a state whose
buffer is `A` followed by the `Jump 9999` placeholder at byte offset
`byteLenL A`: the placeholder is patched to the final end-of-buffer
offset, everything appended after it is jump-safe and the buffer does not
end in a `Pop`. -/
def IfElsePost (c6 c' : Compiler) (A : List Instruction) : Prop :=
  ∃ D,
    topData c' = A ++ Instruction.new .jump [byteLenL A + 3 + byteLenL D] :: D ∧
    ¬ endsPop (Instruction.new .jump [byteLenL A + 3 + byteLenL D] :: D) ∧
    JumpsBounded D (byteLenL A + 3 + byteLenL D) ∧
    c'.scopes.tail = c6.scopes.tail ∧
    c'.scopes ≠ [] ∧
    c'.symbolTable.length = c6.symbolTable.length ∧
    ScopeInv c'.currentScope ∧
    ConstOk c'

/-- The compiler state in which `compile_func` compiles the body: a fresh
scope and symbol-table frame with the parameters defined. -/
def funcEntry (c : Compiler) (params : List String) : Compiler :=
  { c.enterScope with
      symbolTable :=
        params.foldl (fun st q => (stDefine st q).1) (c.enterScope).symbolTable }


/-! ### Basic lemmas about the byte buffer -/

theorem byteLenL_append (a b : List Instruction) :
    byteLenL (a ++ b) = byteLenL a + byteLenL b := by
  simp [byteLenL]

theorem byteLenL_singleton (i : Instruction) : byteLenL [i] = i.size := by
  simp [byteLenL]

theorem Instruction.size_pos (i : Instruction) : 0 < i.size := by
  simp [Instruction.size]

theorem removeAux_append (A : List Instruction) (x : Instruction) (B : List Instruction) :
    removeAux (A ++ x :: B) (byteLenL A) = A ++ B := by
  induction A with
  | nil => simp [removeAux, byteLenL]
  | cons a A ih =>
    have hpos := a.size_pos
    have hlen : byteLenL (a :: A) = a.size + byteLenL A := by
      simp [byteLenL]
    simp only [List.cons_append, removeAux, hlen]
    rw [if_neg (by omega)]
    have h2 : a.size + byteLenL A - a.size = byteLenL A := by omega
    rw [h2]
    simp only [List.append_eq]
    rw [ih]

theorem patchAux_append (A : List Instruction) (x : Instruction) (B : List Instruction)
    (i : Instruction) :
    patchAux (A ++ x :: B) (byteLenL A) i = A ++ i :: B := by
  induction A with
  | nil => simp [patchAux, byteLenL]
  | cons a A ih =>
    have hpos := a.size_pos
    have hlen : byteLenL (a :: A) = a.size + byteLenL A := by
      simp [byteLenL]
    simp only [List.cons_append, patchAux, hlen]
    rw [if_neg (by omega)]
    have h2 : a.size + byteLenL A - a.size = byteLenL A := by omega
    rw [h2]
    simp only [List.append_eq]
    rw [ih]

theorem padLenL_le (L : List Instruction) : padLenL L ≤ byteLenL L := by
  unfold padLenL
  split <;> omega

theorem endsPop_append_one (L : List Instruction) (i : Instruction) :
    endsPop (L ++ [i]) ↔ i.op = .pop := by
  simp [endsPop]

theorem size_pop (i : Instruction) (h : i.op = .pop) : i.size = 1 := by
  simp [Instruction.size, h, OpCode.width]

theorem padLenL_append_one (L : List Instruction) (i : Instruction) :
    padLenL L ≤ padLenL (L ++ [i]) := by
  by_cases hp : i.op = .pop
  · have h1 : padLenL (L ++ [i]) = byteLenL L := by
      unfold padLenL
      rw [if_pos ((endsPop_append_one L i).mpr hp), byteLenL_append, byteLenL_singleton,
        size_pop i hp]
      omega
    rw [h1]

    exact padLenL_le L
  · have h1 : padLenL (L ++ [i]) = byteLenL L + i.size := by
      unfold padLenL
      rw [if_neg (by rw [endsPop_append_one]; exact hp), byteLenL_append, byteLenL_singleton]
      omega
    rw [h1]
    have := padLenL_le L
    omega

theorem padLenL_append (L M : List Instruction) : padLenL L ≤ padLenL (L ++ M) := by
  induction M generalizing L with
  | nil => simp
  | cons m M ih =>
    calc padLenL L ≤ padLenL (L ++ [m]) := padLenL_append_one L m
      _ ≤ padLenL ((L ++ [m]) ++ M) := ih (L ++ [m])
      _ = padLenL (L ++ m :: M) := by simp

theorem padLenL_of_last_not_pop (L : List Instruction) (j : Instruction)
    (hj : j.op ≠ .pop) : padLenL (L ++ [j]) = byteLenL (L ++ [j]) := by
  unfold padLenL
  rw [if_neg (by rw [endsPop_append_one]; exact hj)]
  omega

theorem padLenL_append_pop (L : List Instruction) (j : Instruction)
    (hj : j.op = .pop) : padLenL (L ++ [j]) = byteLenL L := by
  unfold padLenL
  rw [if_pos ((endsPop_append_one L j).mpr hj), byteLenL_append, byteLenL_singleton,
    size_pop j hj]
  omega

/-! ### Structural equality of objects is decidable equality -/

mutual

theorem Object.beq_iff : ∀ a b : Object, Object.beq a b = true ↔ a = b
  | .integer a, b => by cases b <;> simp [Object.beq]
  | .bool a, b => by cases b <;> simp [Object.beq]
  | .string a, b => by cases b <;> simp [Object.beq]
  | .null, b => by cases b <;> simp [Object.beq]
  | .array a, b => by
    cases b <;> simp [Object.beq]
    exact Object.beqList_iff a _
  | .hash a, b => by
    cases b <;> simp [Object.beq]
    exact Object.beqPairs_iff a _
  | .compiledFunc i1 l1 p1, b => by cases b <;> simp [Object.beq, and_assoc]
  | .builtin a, b => by cases b <;> simp [Object.beq]
  | .ret a, b => by
    cases b <;> simp [Object.beq]
    exact Object.beq_iff a _

theorem Object.beqList_iff : ∀ a b : List Object, Object.beqList a b = true ↔ a = b
  | [], b => by cases b <;> simp [Object.beqList]
  | x :: xs, b => by
    cases b with
    | nil => simp [Object.beqList]
    | cons y ys =>
      simp only [Object.beqList, Bool.and_eq_true, List.cons.injEq]
      rw [Object.beq_iff x y, Object.beqList_iff xs ys]

theorem Object.beqPairs_iff : ∀ a b : List (Object × Object), Object.beqPairs a b = true ↔ a = b
  | [], b => by cases b <;> simp [Object.beqPairs]
  | (k, v) :: xs, b => by
    cases b with
    | nil => simp [Object.beqPairs]
    | cons y ys =>
      obtain ⟨k2, v2⟩ := y
      simp only [Object.beqPairs, Bool.and_eq_true, List.cons.injEq, Prod.mk.injEq]
      rw [Object.beq_iff k k2, Object.beq_iff v v2, Object.beqPairs_iff xs ys, and_assoc]

end

theorem byteToOp_byte (op : OpCode) : byteToOp op.byte = some op := by
  cases op <;> rfl

/-! ### Concrete compilations and runs -/

/-- C1: compiling `1 + 2` with a fresh default compiler yields instructions
`Constant 1, Constant 2, Add, Pop` with constants `[Integer 1, Integer 2]`
after the `Null` sentinel in slot 0, and running that bytecode in a fresh VM
returns `Ok` with `last_popped() = Integer 3`. -/
theorem C1_one_plus_two_compiles_and_runs :
    compileProgram addProgram = .ok addBytecode ∧
    runResult addBytecode = some (.integer 3) := by
  constructor
  · simp [compileProgram, Compiler.compile, addProgram, compileBlock, compileBlockCons,
      compileStmt, compileExprStmt, compileExpr, compileInfixOp, compileInfixNormal,
      compileNumber, Compiler.default, Compiler.emit, Compiler.addConstant,
      Instruction.new, Bytes.push, Compiler.bytecode, Compiler.currentScope, addBytecode,
      stDefineBuiltin, Frame.empty]
  · have e1 : runLoop [0,0,1,0,0,2,2,1] [.null, .integer 1, .integer 2]
        (List.replicate 2048 Object.null) 0 0 =
        runLoop [0,0,1,0,0,2,2,1] [.null, .integer 1, .integer 2]
        ((List.replicate 2048 Object.null).set 0 (.integer 1)) 1 3 := by
      rw [runLoop]
      rfl
    have e2 : runLoop [0,0,1,0,0,2,2,1] [.null, .integer 1, .integer 2]
        ((List.replicate 2048 Object.null).set 0 (.integer 1)) 1 3 =
        runLoop [0,0,1,0,0,2,2,1] [.null, .integer 1, .integer 2]
        (((List.replicate 2048 Object.null).set 0 (.integer 1)).set 1 (.integer 2)) 2 6 := by
      rw [runLoop]
      rfl
    have e3 : runLoop [0,0,1,0,0,2,2,1] [.null, .integer 1, .integer 2]
        (((List.replicate 2048 Object.null).set 0 (.integer 1)).set 1 (.integer 2)) 2 6 =
        runLoop [0,0,1,0,0,2,2,1] [.null, .integer 1, .integer 2]
        ((((List.replicate 2048 Object.null).set 0 (.integer 1)).set 1
          (.integer 2)).set 0 (.integer 3)) 1 7 := by
      rw [runLoop]
      rfl
    have e4 : runLoop [0,0,1,0,0,2,2,1] [.null, .integer 1, .integer 2]
        ((((List.replicate 2048 Object.null).set 0 (.integer 1)).set 1
          (.integer 2)).set 0 (.integer 3)) 1 7 =
        runLoop [0,0,1,0,0,2,2,1] [.null, .integer 1, .integer 2]
        ((((List.replicate 2048 Object.null).set 0 (.integer 1)).set 1
          (.integer 2)).set 0 (.integer 3)) 0 8 := by
      rw [runLoop]
      rfl
    have e5 : runLoop [0,0,1,0,0,2,2,1] [.null, .integer 1, .integer 2]
        ((((List.replicate 2048 Object.null).set 0 (.integer 1)).set 1
          (.integer 2)).set 0 (.integer 3)) 0 8 =
        .ok ⟨[0,0,1,0,0,2,2,1], [.null, .integer 1, .integer 2],
          ((((List.replicate 2048 Object.null).set 0 (.integer 1)).set 1
            (.integer 2)).set 0 (.integer 3)), 0⟩ := by
      rw [runLoop]
      rfl
    show (match (Vm.new addBytecode).run with
      | .ok v => some v.lastPopped
      | _ => none) = some (.integer 3)
    have hrun : (Vm.new addBytecode).run =
        .ok ⟨[0,0,1,0,0,2,2,1], [.null, .integer 1, .integer 2],
          ((((List.replicate 2048 Object.null).set 0 (.integer 1)).set 1
            (.integer 2)).set 0 (.integer 3)), 0⟩ := by
      show runLoop [0,0,1,0,0,2,2,1] [.null, .integer 1, .integer 2]
        (List.replicate 2048 Object.null) 0 0 = _
      rw [e1, e2, e3, e4, e5]
    rw [hrun]
    rfl

/-- Intermediate state after compiling the `if`-statement of `ifProgram` on
a fresh default compiler. -/
theorem c2_stage1 : compileStmt Compiler.default
      (.expr (.ifE (.bool true) [.expr (.number 10)] none)) =
    .ok ⟨[.null, .integer 10], Compiler.default.symbolTable,
      [⟨⟨[⟨.tru, []⟩, ⟨.jumpNotTrue, [10]⟩, ⟨.constant, [1]⟩, ⟨.jump, [13]⟩,
          ⟨.constant, [0]⟩, ⟨.pop, []⟩]⟩, some ⟨.pop, 13⟩, some ⟨.constant, 10⟩⟩]⟩ := by
  simp [compileStmt, compileExprStmt, compileExpr, compileIf, compileIfElse, compileBool,
    compileNumber, compileBlock, compileBlockCons,
    Compiler.default, Compiler.emit, Compiler.addConstant, Compiler.lastIs,
    Compiler.removeLast, Compiler.patch, Compiler.insLen, Compiler.currentScope,
    Bytes.patchAt, Bytes.removeAt, Bytes.len, patchAux, removeAux, byteLenL,
    Instruction.size, Instruction.new, Instruction.null, OpCode.width, Bytes.push,
    stDefineBuiltin, Frame.empty]

/-- Intermediate state after also compiling the trailing `3333;` statement. -/
theorem c2_stage2 : compileStmt ⟨[.null, .integer 10], Compiler.default.symbolTable,
      [⟨⟨[⟨.tru, []⟩, ⟨.jumpNotTrue, [10]⟩, ⟨.constant, [1]⟩, ⟨.jump, [13]⟩,
          ⟨.constant, [0]⟩, ⟨.pop, []⟩]⟩, some ⟨.pop, 13⟩, some ⟨.constant, 10⟩⟩]⟩
    (.expr (.number 3333)) =
    .ok ⟨[.null, .integer 10, .integer 3333], Compiler.default.symbolTable,
      [⟨⟨[⟨.tru, []⟩, ⟨.jumpNotTrue, [10]⟩, ⟨.constant, [1]⟩, ⟨.jump, [13]⟩,
          ⟨.constant, [0]⟩, ⟨.pop, []⟩, ⟨.constant, [2]⟩, ⟨.pop, []⟩]⟩,
        some ⟨.pop, 17⟩, some ⟨.constant, 14⟩⟩]⟩ := by
  simp [compileStmt, compileExprStmt, compileExpr, compileNumber,
    Compiler.emit, Compiler.addConstant, Compiler.currentScope,
    Bytes.len, byteLenL, Instruction.size, Instruction.new, OpCode.width, Bytes.push]

/-- Intermediate state: the trailing `3333;` statement appended to the
compiled `if`-statement. -/
theorem c2_block1 : compileBlock ⟨[.null, .integer 10], Compiler.default.symbolTable,
      [⟨⟨[⟨.tru, []⟩, ⟨.jumpNotTrue, [10]⟩, ⟨.constant, [1]⟩, ⟨.jump, [13]⟩,
          ⟨.constant, [0]⟩, ⟨.pop, []⟩]⟩, some ⟨.pop, 13⟩, some ⟨.constant, 10⟩⟩]⟩
    [.expr (.number 3333)] =
    .ok ⟨[.null, .integer 10, .integer 3333], Compiler.default.symbolTable,
      [⟨⟨[⟨.tru, []⟩, ⟨.jumpNotTrue, [10]⟩, ⟨.constant, [1]⟩, ⟨.jump, [13]⟩,
          ⟨.constant, [0]⟩, ⟨.pop, []⟩, ⟨.constant, [2]⟩, ⟨.pop, []⟩]⟩,
        some ⟨.pop, 17⟩, some ⟨.constant, 14⟩⟩]⟩ := by
  rw [compileBlock, compileBlockCons]
  simp only [c2_stage2]
  rw [compileBlock]

/-- The whole statement list of `ifProgram`, compiled. -/
theorem c2_block : compileBlock Compiler.default
    [.expr (.ifE (.bool true) [.expr (.number 10)] none), .expr (.number 3333)] =
    .ok ⟨[.null, .integer 10, .integer 3333], Compiler.default.symbolTable,
      [⟨⟨[⟨.tru, []⟩, ⟨.jumpNotTrue, [10]⟩, ⟨.constant, [1]⟩, ⟨.jump, [13]⟩,
          ⟨.constant, [0]⟩, ⟨.pop, []⟩, ⟨.constant, [2]⟩, ⟨.pop, []⟩]⟩,
        some ⟨.pop, 17⟩, some ⟨.constant, 14⟩⟩]⟩ := by
  rw [compileBlock, compileBlockCons]
  simp only [c2_stage1]
  exact c2_block1

/-- The same result through `Compiler.compile`. -/
theorem c2_whole : Compiler.default.compile ifProgram =
    .ok ⟨[.null, .integer 10, .integer 3333], Compiler.default.symbolTable,
      [⟨⟨[⟨.tru, []⟩, ⟨.jumpNotTrue, [10]⟩, ⟨.constant, [1]⟩, ⟨.jump, [13]⟩,
          ⟨.constant, [0]⟩, ⟨.pop, []⟩, ⟨.constant, [2]⟩, ⟨.pop, []⟩]⟩,
        some ⟨.pop, 17⟩, some ⟨.constant, 14⟩⟩]⟩ := c2_block

/-- The bytecode snapshot of that final compiler state. -/
theorem c2_bytecode : (⟨[.null, .integer 10, .integer 3333], Compiler.default.symbolTable,
      [⟨⟨[⟨.tru, []⟩, ⟨.jumpNotTrue, [10]⟩, ⟨.constant, [1]⟩, ⟨.jump, [13]⟩,
          ⟨.constant, [0]⟩, ⟨.pop, []⟩, ⟨.constant, [2]⟩, ⟨.pop, []⟩]⟩,
        some ⟨.pop, 17⟩, some ⟨.constant, 14⟩⟩]⟩ : Compiler).bytecode = ifBytecode := rfl

/-- Unfolding of the compile-and-snapshot harness on a successful compile. -/
theorem compileProgram_ok (p : Program) (c : Compiler)
    (h : Compiler.default.compile p = .ok c) :
    compileProgram p = .ok c.bytecode := by
  unfold compileProgram
  rw [h]

/-- The full compilation of `ifProgram` on a fresh default compiler. -/
theorem c2_compile : compileProgram ifProgram = .ok ifBytecode :=
  (compileProgram_ok _ _ c2_whole).trans (congrArg Except.ok c2_bytecode)

/-- C2: the compiler lowers `if (true) { 10 }; 3333;` to the expected
bytecode (with `JumpNotTrue 10` and `Jump 13`), but the VM's `run` hits the
`_ => todo!()` arm on the `JumpNotTrue` opcode and panics instead of
dispatching the jumps and returning `Ok` with `last_popped() =
Integer 3333` as the specification requires. -/
theorem C2_if_program_compiles_but_vm_panics :
    compileProgram ifProgram = .ok ifBytecode ∧
    (Vm.new ifBytecode).run = .panic := by
  refine ⟨c2_compile, ?_⟩
  have e1 : runLoop [11, 14,0,10, 0,0,1, 13,0,13, 0,0,0, 1, 0,0,2, 1]
      [.null, .integer 10, .integer 3333] (List.replicate 2048 Object.null) 0 0 =
      runLoop [11, 14,0,10, 0,0,1, 13,0,13, 0,0,0, 1, 0,0,2, 1]
      [.null, .integer 10, .integer 3333]
      ((List.replicate 2048 Object.null).set 0 (.bool true)) 1 1 := by
    rw [runLoop]
    rfl
  have e2 : runLoop [11, 14,0,10, 0,0,1, 13,0,13, 0,0,0, 1, 0,0,2, 1]
      [.null, .integer 10, .integer 3333]
      ((List.replicate 2048 Object.null).set 0 (.bool true)) 1 1 = .panic := by
    rw [runLoop]
    rfl
  show runLoop [11, 14,0,10, 0,0,1, 13,0,13, 0,0,0, 1, 0,0,2, 1]
    [.null, .integer 10, .integer 3333] (List.replicate 2048 Object.null) 0 0 = .panic
  rw [e1, e2]

/-- C3: executing `Add` with two `String` operands on top of the stack does
not concatenate; the VM's `execute_bin_op` falls through the integer arm and
the same-kind `Eq`/`NotEq` arm and returns the
`unknown operation: <left> + <right>` error. -/
theorem C3_string_add_returns_unknown_operation :
    Vm.executeBinOp ⟨[], [], [.string "a", .string "b"], 2⟩ .add =
      .err ("unknown operation: " ++ (Object.string "a").display ++ " " ++
        OpCode.add.display ++ " " ++ (Object.string "b").display) := by
  rfl

/-- C6: for the operator `<` the compiler compiles the right operand first,
then the left operand, and emits `Greater`; concretely `1 < 2` compiles to
constants `[2, 1]` after slot 0 and instructions
`Constant 1, Constant 2, Greater, Pop`. -/
theorem C6_less_than_compiles_reversed :
    (∀ (c c1 c2 : Compiler) (l r : Expression),
      compileExpr c r = .ok c1 → compileExpr c1 l = .ok c2 →
      compileInfixOp c .lt l r = .ok (c2.emit (Instruction.new .greater [])).1) ∧
    compileProgram ltProgram = .ok ltBytecode := by
  constructor
  · intro c c1 c2 l r h1 h2
    rw [compileInfixOp, compileInfixRev]
    simp only [h1, h2]
  · simp [compileProgram, Compiler.compile, ltProgram, compileBlock, compileBlockCons,
      compileStmt, compileExprStmt, compileExpr, compileInfixOp, compileInfixRev,
      compileNumber, Compiler.default, Compiler.emit, Compiler.addConstant,
      Instruction.new, Bytes.push, Compiler.bytecode, Compiler.currentScope, ltBytecode,
      stDefineBuiltin, Frame.empty]

set_option maxRecDepth 4096 in
/-- Witness for C6: the reversal theorem applied to `1 < 2` on a minimal
compiler state. -/
theorem C6_witness :
    compileInfixOp ⟨[], [], [{}]⟩ .lt (.number 1) (.number 2) =
      .ok ⟨[.integer 2, .integer 1], [],
        [{ instructions := ⟨[.new .constant [0], .new .constant [1], .new .greater []]⟩
           last := some ⟨.greater, 6⟩
           prev := some ⟨.constant, 3⟩ }]⟩ := by
  have h1 : compileExpr ⟨[], [], [{}]⟩ (.number 2) =
      .ok ⟨[.integer 2], [],
        [{ instructions := ⟨[.new .constant [0]]⟩
           last := some ⟨.constant, 0⟩
           prev := none }]⟩ := by
    simp [compileExpr, compileNumber, Compiler.addConstant, Compiler.emit, Instruction.new,
      Bytes.push, Bytes.len, byteLenL]
  have h2 : compileExpr ⟨[.integer 2], [],
        [{ instructions := ⟨[.new .constant [0]]⟩
           last := some ⟨.constant, 0⟩
           prev := none }]⟩ (.number 1) =
      .ok ⟨[.integer 2, .integer 1], [],
        [{ instructions := ⟨[.new .constant [0], .new .constant [1]]⟩
           last := some ⟨.constant, 3⟩
           prev := some ⟨.constant, 0⟩ }]⟩ := by
    simp [compileExpr, compileNumber, Compiler.addConstant, Compiler.emit, Instruction.new,
      Bytes.push, Bytes.len, byteLenL, Instruction.size, OpCode.width]
  have h := C6_less_than_compiles_reversed.1 _ _ _ (.number 1) (.number 2) h1 h2
  rw [h]
  rfl

/-- C9: the value stack is exactly `STACK_SIZE = 2048` preallocated `Null`
slots; a push with `sp < 2048` stores the value at slot `sp` and increments
`sp`; a push with `sp ≥ 2048` fails with the error string `Stack overflow`
(the machine state, being untouched by the failing push, is unchanged). -/
theorem C9_stack_size_and_push :
    STACK_SIZE = 2048 ∧
    (∀ b : Bytecode, (Vm.new b).stack = List.replicate 2048 Object.null ∧
      (Vm.new b).stack.length = 2048) ∧
    (∀ (v : Vm) (o : Object), v.sp < 2048 →
      v.push o = .ok { v with stack := v.stack.set v.sp o, sp := v.sp + 1 }) ∧
    (∀ (v : Vm) (o : Object), 2048 ≤ v.sp → v.push o = .error "Stack overflow") := by
  refine ⟨rfl, fun b => ⟨rfl, by
    rw [show (Vm.new b).stack = List.replicate 2048 Object.null from rfl,
      List.length_replicate]⟩, ?_, ?_⟩
  · intro v o h
    have hn : ¬ v.sp ≥ STACK_SIZE := by
      show ¬ v.sp ≥ 2048
      omega
    rw [Vm.push, if_neg hn]
  · intro v o h
    have hp : v.sp ≥ STACK_SIZE := by
      show v.sp ≥ 2048
      omega
    rw [Vm.push, if_pos hp]

/-- Witness for C9: the push theorem applied at concrete machines with
`sp = 0` and `sp = 2048`. -/
theorem C9_witness :
    (⟨[], [], [.null], 0⟩ : Vm).push (.integer 5) =
      .ok ⟨[], [], [Object.null].set 0 (.integer 5), 1⟩ ∧
    (⟨[], [], [], 2048⟩ : Vm).push (.integer 5) = .error "Stack overflow" :=
  ⟨C9_stack_size_and_push.2.2.1 ⟨[], [], [.null], 0⟩ (.integer 5)
      (by show (0 : Nat) < 2048; omega),
   C9_stack_size_and_push.2.2.2 ⟨[], [], [], 2048⟩ (.integer 5)
      (by show (2048 : Nat) ≤ 2048; omega)⟩

/-- C10 (corrected): `Div` on two in-range `i64` operands with a non-zero
right operand pops both and pushes the truncating quotient `Integer (l / r)`
— except at `l = i64::MIN, r = -1`, where the source's `left / right`
overflows and panics; with a zero right operand the division is likewise
unguarded and panics, so `run` on the compiled `1 / 0` finishes neither
with `Ok` nor with an error string. -/
theorem C10_div_truncates_unless_overflow_and_panics :
    (∀ (v : Vm) (l r : Int), 2 ≤ v.sp → v.sp ≤ STACK_SIZE →
      -(2 ^ 63) ≤ l → l < 2 ^ 63 → -(2 ^ 63) ≤ r → r < 2 ^ 63 →
      v.stack.getD (v.sp - 1) .null = .integer r →
      v.stack.getD (v.sp - 2) .null = .integer l →
      (r ≠ 0 → ¬(l = -(2 ^ 63) ∧ r = -1) → v.executeBinOp .div =
        .ok ⟨v.instructions, v.constants,
          v.stack.set (v.sp - 2) (.integer (Int.tdiv l r)), v.sp - 1⟩) ∧
      (r = 0 → v.executeBinOp .div = .panic) ∧
      (l = -(2 ^ 63) → r = -1 → v.executeBinOp .div = .panic)) ∧
    compileProgram divZeroProgram = .ok divZeroBytecode ∧
    (Vm.new divZeroBytecode).run = .panic ∧
    (∀ v, (Vm.new divZeroBytecode).run ≠ .ok v) ∧
    (∀ e, (Vm.new divZeroBytecode).run ≠ .err e) := by
  have hsem : ∀ (v : Vm) (l r : Int), 2 ≤ v.sp → v.sp ≤ STACK_SIZE →
      -(2 ^ 63) ≤ l → l < 2 ^ 63 → -(2 ^ 63) ≤ r → r < 2 ^ 63 →
      v.stack.getD (v.sp - 1) .null = .integer r →
      v.stack.getD (v.sp - 2) .null = .integer l →
      (r ≠ 0 → ¬(l = -(2 ^ 63) ∧ r = -1) → v.executeBinOp .div =
        .ok ⟨v.instructions, v.constants,
          v.stack.set (v.sp - 2) (.integer (Int.tdiv l r)), v.sp - 1⟩) ∧
      (r = 0 → v.executeBinOp .div = .panic) ∧
      (l = -(2 ^ 63) → r = -1 → v.executeBinOp .div = .panic) := by
    intro v l r h2 hcap _hl1 _hl2 _hr1 _hr2 hr hl
    have hcap2 : v.sp ≤ 2048 := hcap
    have hpop1 : v.pop = some (.integer r, { v with sp := v.sp - 1 }) := by
      rw [Vm.pop, if_neg (by omega), hr]
    have hpop2 : ({ v with sp := v.sp - 1 } : Vm).pop =
        some (.integer l, { v with sp := v.sp - 2 }) := by
      rw [Vm.pop, if_neg (by show ¬ v.sp - 1 = 0; omega)]
      show some (v.stack.getD (v.sp - 1 - 1) Object.null, _) = _
      rw [show v.sp - 1 - 1 = v.sp - 2 from by omega, hl]
    have harith : v.sp - 2 + 1 = v.sp - 1 := by omega
    have hov : ¬ v.sp - 2 ≥ STACK_SIZE := by
      show ¬ v.sp - 2 ≥ 2048
      omega
    refine ⟨?_, ?_, ?_⟩
    · intro hr0 hmin
      unfold Vm.executeBinOp
      rw [hpop1]
      simp only [hpop2]
      rw [if_neg (by
        intro hc
        rcases hc with hc | hc
        · exact hr0 hc
        · exact hmin hc)]
      rw [Vm.push, if_neg hov]
      simp only [pushRes, harith]
    · intro hr0
      subst hr0
      unfold Vm.executeBinOp
      rw [hpop1]
      simp only [hpop2]
      simp
    · intro hl0 hr0
      subst hl0
      subst hr0
      unfold Vm.executeBinOp
      rw [hpop1]
      simp only [hpop2]
      simp
  refine ⟨hsem, ?_, ?_⟩
  · simp [compileProgram, Compiler.compile, divZeroProgram, compileBlock, compileBlockCons,
      compileStmt, compileExprStmt, compileExpr, compileInfixOp, compileInfixNormal,
      compileNumber, Compiler.default, Compiler.emit, Compiler.addConstant,
      Instruction.new, Bytes.push, Compiler.bytecode, Compiler.currentScope, divZeroBytecode,
      stDefineBuiltin, Frame.empty]
  · have e1 : runLoop [0,0,1,0,0,2,5,1] [.null, .integer 1, .integer 0]
        (List.replicate 2048 Object.null) 0 0 =
        runLoop [0,0,1,0,0,2,5,1] [.null, .integer 1, .integer 0]
        ((List.replicate 2048 Object.null).set 0 (.integer 1)) 1 3 := by
      rw [runLoop]
      rfl
    have e2 : runLoop [0,0,1,0,0,2,5,1] [.null, .integer 1, .integer 0]
        ((List.replicate 2048 Object.null).set 0 (.integer 1)) 1 3 =
        runLoop [0,0,1,0,0,2,5,1] [.null, .integer 1, .integer 0]
        (((List.replicate 2048 Object.null).set 0 (.integer 1)).set 1 (.integer 0)) 2 6 := by
      rw [runLoop]
      rfl
    have e3 : runLoop [0,0,1,0,0,2,5,1] [.null, .integer 1, .integer 0]
        (((List.replicate 2048 Object.null).set 0 (.integer 1)).set 1 (.integer 0)) 2 6 =
        .panic := by
      rw [runLoop]
      rfl
    have hrun : (Vm.new divZeroBytecode).run = .panic := by
      show runLoop [0,0,1,0,0,2,5,1] [.null, .integer 1, .integer 0]
        (List.replicate 2048 Object.null) 0 0 = .panic
      rw [e1, e2, e3]
    refine ⟨hrun, ?_, ?_⟩
    · intro v h
      rw [hrun] at h
      exact RunRes.noConfusion h
    · intro e h
      rw [hrun] at h
      exact RunRes.noConfusion h

/-- Witness for C10: truncating division of `-7` by `2` gives `-3`, a zero
divisor panics, and `i64::MIN / -1` panics, on concrete machines. -/
theorem C10_witness :
    Vm.executeBinOp ⟨[], [], [.integer (-7), .integer 2], 2⟩ .div =
      .ok ⟨[], [], [Object.integer (-7), Object.integer 2].set 0 (.integer (Int.tdiv (-7) 2)), 1⟩ ∧
    Vm.executeBinOp ⟨[], [], [.integer 1, .integer 0], 2⟩ .div = .panic ∧
    Vm.executeBinOp ⟨[], [], [.integer (-(2 ^ 63)), .integer (-1)], 2⟩ .div = .panic := by
  refine ⟨?_, ?_, ?_⟩
  · exact (C10_div_truncates_unless_overflow_and_panics.1
      ⟨[], [], [.integer (-7), .integer 2], 2⟩ (-7) 2
      (by show 2 ≤ 2; omega) (by show (2 : Nat) ≤ 2048; omega)
      (by decide) (by decide) (by decide) (by decide) rfl rfl).1
      (by decide) (by decide)
  · exact (C10_div_truncates_unless_overflow_and_panics.1
      ⟨[], [], [.integer 1, .integer 0], 2⟩ 1 0
      (by show 2 ≤ 2; omega) (by show (2 : Nat) ≤ 2048; omega)
      (by decide) (by decide) (by decide) (by decide) rfl rfl).2.1 rfl
  · exact (C10_div_truncates_unless_overflow_and_panics.1
      ⟨[], [], [.integer (-(2 ^ 63)), .integer (-1)], 2⟩ (-(2 ^ 63)) (-1)
      (by show 2 ≤ 2; omega) (by show (2 : Nat) ≤ 2048; omega)
      (by decide) (by decide) (by decide) (by decide) rfl rfl).2.2 rfl rfl

/-- Counterexample to the uncorrected reading of C10: the right operand
`-1` is non-zero, yet `Div` at `left = i64::MIN` pushes no quotient — the
source's `left / right` overflows `i64` (`2^63` is not an `i64`) and
panics. -/
theorem C10_counterexample_min_div_neg_one :
    (-1 : Int) ≠ 0 ∧
    Vm.executeBinOp ⟨[], [], [.integer (-(2 ^ 63)), .integer (-1)], 2⟩ .div = .panic ∧
    ∀ v' : Vm,
      Vm.executeBinOp ⟨[], [], [.integer (-(2 ^ 63)), .integer (-1)], 2⟩ .div ≠ .ok v' := by
  have h : Vm.executeBinOp ⟨[], [], [.integer (-(2 ^ 63)), .integer (-1)], 2⟩ .div
      = .panic := by
    unfold Vm.executeBinOp
    simp [Vm.pop]
  exact ⟨by decide, h, fun v' hc => by rw [h] at hc; exact RunRes.noConfusion hc⟩

set_option maxHeartbeats 1600000 in
/-- C4: with two same-kind operands on top of the stack, `Eq` (resp.
`NotEq`) pushes the `Bool` of their structural equality (resp. inequality);
`Object.beq` is structural equality; for every operand pair that is neither
two integers nor a same-kind pair under `Eq`/`NotEq`, `execute_bin_op`
returns `unknown operation: <left> <op> <right>`, and `run` forwards such
an error, aborting the machine. -/
theorem C4_eq_noteq_by_kind_and_unknown_operation :
    (∀ (v : Vm) (l r : Object), 2 ≤ v.sp → v.sp ≤ STACK_SIZE →
      v.stack.getD (v.sp - 1) .null = r →
      v.stack.getD (v.sp - 2) .null = l →
      (l.kind = r.kind →
        v.executeBinOp .eq =
          .ok ⟨v.instructions, v.constants,
            v.stack.set (v.sp - 2) (.bool (Object.beq l r)), v.sp - 1⟩ ∧
        v.executeBinOp .notEq =
          .ok ⟨v.instructions, v.constants,
            v.stack.set (v.sp - 2) (.bool (!Object.beq l r)), v.sp - 1⟩) ∧
      (∀ op : OpCode, (∀ li ri : Int, ¬(l = Object.integer li ∧ r = Object.integer ri)) →
        (l.kind ≠ r.kind ∨ (op ≠ .eq ∧ op ≠ .notEq)) →
        v.executeBinOp op =
          .err ("unknown operation: " ++ l.display ++ " " ++ op.display ++ " " ++ r.display))) ∧
    (∀ l r : Object, Object.beq l r = true ↔ l = r) ∧
    (∀ (ins : List Nat) (consts : List Object) (stack : List Object) (sp ip : Nat)
      (op : OpCode) (e : String), ip < ins.length →
      ins.getD ip 0 = OpCode.byte op →
      (op = .add ∨ op = .sub ∨ op = .mul ∨ op = .div ∨ op = .greater ∨
        op = .eq ∨ op = .notEq) →
      Vm.executeBinOp ⟨ins, consts, stack, sp⟩ op = .err e →
      runLoop ins consts stack sp ip = .err e) := by
  refine ⟨?_, Object.beq_iff, ?_⟩
  · intro v l r h2 hcap hr hl
    have hcap2 : v.sp ≤ 2048 := hcap
    have hpop1 : v.pop = some (r, { v with sp := v.sp - 1 }) := by
      rw [Vm.pop, if_neg (by omega), hr]
    have hpop2 : ({ v with sp := v.sp - 1 } : Vm).pop =
        some (l, { v with sp := v.sp - 2 }) := by
      rw [Vm.pop, if_neg (by show ¬ v.sp - 1 = 0; omega)]
      show some (v.stack.getD (v.sp - 1 - 1) Object.null, _) = _
      rw [show v.sp - 1 - 1 = v.sp - 2 from by omega, hl]
    have harith : v.sp - 2 + 1 = v.sp - 1 := by omega
    have hov : ¬ v.sp - 2 ≥ STACK_SIZE := by
      show ¬ v.sp - 2 ≥ 2048
      omega
    constructor
    · intro hkind
      constructor <;>
      · unfold Vm.executeBinOp
        rw [hpop1]
        simp only [hpop2]
        rcases l <;> rcases r <;>
          simp_all [Object.kind, Object.beq, Vm.push, hov, pushRes, harith, bne] <;>
          rw [if_neg (by omega)]
    · intro op hint hdisj
      rcases l with li | lb | ls | _ | la | lh | ⟨lF, lL, lP⟩ | lB | lR <;>
        rcases r with ri | rb | rs | _ | ra | rh | ⟨rF, rL, rP⟩ | rB | rR <;>
        first
        | (exact (hint li ri ⟨rfl, rfl⟩).elim)
        | (unfold Vm.executeBinOp
           rw [hpop1]
           simp only [hpop2]
           try simp only [Object.kind]
           split
           · rename_i hkk
             rcases hdisj with hk | ⟨h1, h2⟩
             · first
               | exact absurd rfl hk
               | simp at hkk
             · cases op <;> first | exact absurd rfl h1 | exact absurd rfl h2 | rfl
           · rfl)
  · intro ins consts stack sp ip op e hip hbyte hop hbin
    rcases hop with rfl | rfl | rfl | rfl | rfl | rfl | rfl <;>
    · rw [runLoop, dif_pos hip, hbyte, byteToOp_byte]
      simp only [hbin]

/-- Concrete instances of the Eq/NotEq and unknown-operation behaviour:
equality of two booleans succeeds by value; `Add` on a string and an
integer yields exactly `unknown operation: a + 5`; and `run`'s loop forwards
that error when dispatching the `Add` opcode (byte 2). -/
theorem C4_witness :
    (Vm.executeBinOp ⟨[], [], [Object.bool true, Object.bool false], 2⟩ .eq =
      .ok ⟨[], [], [Object.bool false, Object.bool false], 1⟩) ∧
    (Vm.executeBinOp ⟨[], [], [Object.string "a", Object.integer 5], 2⟩ .add =
      .err "unknown operation: a + 5") ∧
    (runLoop [2] [] [Object.string "a", Object.integer 5] 2 0 =
      .err "unknown operation: a + 5") := by
  obtain ⟨ha, _hb, hc⟩ := C4_eq_noteq_by_kind_and_unknown_operation
  refine ⟨?_, ?_, ?_⟩
  · exact ((ha ⟨[], [], [Object.bool true, Object.bool false], 2⟩
      (Object.bool true) (Object.bool false)
      (by decide) (by decide) rfl rfl).1 rfl).1
  · exact (ha ⟨[], [], [Object.string "a", Object.integer 5], 2⟩
      (Object.string "a") (Object.integer 5)
      (by decide) (by decide) rfl rfl).2 .add
      (fun li ri h => Object.noConfusion h.1)
      (Or.inr ⟨by decide, by decide⟩)
  · exact hc [2] [] [Object.string "a", Object.integer 5] 2 0 .add
      "unknown operation: a + 5" (by decide) rfl (Or.inl rfl) rfl


/-! ### More lemmas about buffers, jump bounds and record accuracy -/

theorem byteLenL_pos (L : List Instruction) (h : L ≠ []) : 0 < byteLenL L := by
  cases L with
  | nil => exact absurd rfl h
  | cons a l =>
    have := a.size_pos
    simp [byteLenL]
    omega

theorem endsPop_append_left (A B : List Instruction) (h : B ≠ []) :
    endsPop (A ++ B) ↔ endsPop B := by
  unfold endsPop
  rw [List.getLast?_append_of_ne_nil A h]

theorem padLenL_append_left (A B : List Instruction) (h : B ≠ []) :
    padLenL (A ++ B) = byteLenL A + padLenL B := by
  have hp := byteLenL_pos B h
  unfold padLenL
  rw [byteLenL_append]
  by_cases he : endsPop B
  · rw [if_pos ((endsPop_append_left A B h).mpr he), if_pos he]
    omega
  · rw [if_neg (fun hc => he ((endsPop_append_left A B h).mp hc)), if_neg he]
    omega

theorem padLenL_eq_of_not_endsPop (L : List Instruction) (h : ¬ endsPop L) :
    padLenL L = byteLenL L := by
  unfold padLenL
  rw [if_neg h]
  omega

theorem lastInfo_append_one (d : List Instruction) (i : Instruction) :
    lastInfo (d ++ [i]) = some ⟨i.op, byteLenL d⟩ := by
  unfold lastInfo
  rw [List.getLast?_concat, List.dropLast_concat]

theorem getD_append_len (l : List Object) (x d : Object) :
    (l ++ [x]).getD l.length d = x := by
  simp [List.getD]

theorem jumpsBounded_nil (b : Nat) : JumpsBounded [] b := by
  intro i hi
  exact absurd hi (List.not_mem_nil i)

theorem jumpsBounded_mono (L : List Instruction) (b b' : Nat) (h : b ≤ b')
    (hL : JumpsBounded L b) : JumpsBounded L b' := by
  intro i hi hop
  exact le_trans (hL i hi hop) h

theorem jumpsBounded_append (A B : List Instruction) (b : Nat)
    (hA : JumpsBounded A b) (hB : JumpsBounded B b) : JumpsBounded (A ++ B) b := by
  intro i hi hop
  rcases List.mem_append.mp hi with h | h
  · exact hA i h hop
  · exact hB i h hop

theorem jumpsBounded_single_nonjump (i : Instruction) (b : Nat)
    (h1 : i.op ≠ .jump) (h2 : i.op ≠ .jumpNotTrue) : JumpsBounded [i] b := by
  intro j hj hop
  rw [List.mem_singleton.mp hj] at hop
  rcases hop with h | h
  · exact absurd h h1
  · exact absurd h h2

theorem jumpsBounded_single (i : Instruction) (b : Nat)
    (h : i.operands.headD 0 ≤ b) : JumpsBounded [i] b := by
  intro j hj _
  rw [List.mem_singleton.mp hj]
  exact h

theorem jumpsBounded_of_sub (A B : List Instruction) (b : Nat)
    (hsub : ∀ i ∈ A, i ∈ B) (h : JumpsBounded B b) : JumpsBounded A b := by
  intro i hi hop
  exact h i (hsub i hi) hop

theorem op_new (op : OpCode) (ops : List Nat) : (Instruction.new op ops).op = op := rfl

theorem size_jnt (ops : List Nat) : (Instruction.new .jumpNotTrue ops).size = 3 := rfl

theorem size_jump (ops : List Nat) : (Instruction.new .jump ops).size = 3 := rfl

theorem size_null : Instruction.null.size = 3 := rfl

theorem byteLenL_concat (L : List Instruction) (i : Instruction) :
    byteLenL (L ++ [i]) = byteLenL L + i.size := by
  rw [byteLenL_append, byteLenL_singleton]

theorem endsPop_single (i : Instruction) : endsPop [i] ↔ i.op = .pop := by
  simpa using endsPop_append_one [] i

theorem emit_state (c : Compiler) (i : Instruction) (s : Scope) (ss : List Scope)
    (hs : c.scopes = s :: ss) :
    c.emit i =
      ({ c with scopes :=
          { instructions := ⟨s.instructions.data ++ [i]⟩,
            last := some ⟨i.op, byteLenL s.instructions.data⟩,
            prev := s.last } :: ss }, byteLenL s.instructions.data) := by
  rw [Compiler.emit, hs]
  rfl

theorem currentScope_of_cons (c : Compiler) (s : Scope) (ss : List Scope)
    (hs : c.scopes = s :: ss) : c.currentScope = s := by
  rw [Compiler.currentScope, hs]
  rfl

theorem emit_parts (c : Compiler) (i : Instruction) (h : c.scopes ≠ []) :
    topData (c.emit i).1 = topData c ++ [i] ∧
    (c.emit i).2 = byteLenL (topData c) ∧
    (c.emit i).1.constants = c.constants ∧
    (c.emit i).1.symbolTable = c.symbolTable ∧
    (c.emit i).1.scopes.tail = c.scopes.tail ∧
    (c.emit i).1.scopes ≠ [] ∧
    (c.emit i).1.currentScope.last = some ⟨i.op, byteLenL (topData c)⟩ ∧
    (c.emit i).1.currentScope.prev = c.currentScope.last := by
  cases hs : c.scopes with
  | nil => exact absurd hs h
  | cons s ss =>
    have hcur := currentScope_of_cons c s ss hs
    have htop : topData c = s.instructions.data := by rw [topData, hcur]
    rw [emit_state c i s ss hs]
    refine ⟨?_, by rw [htop], rfl, rfl, rfl, by simp, ?_, ?_⟩
    · show (Compiler.currentScope _).instructions.data = _
      rw [Compiler.currentScope]
      simp [htop]
    · show (Compiler.currentScope _).last = _
      rw [Compiler.currentScope]
      simp [htop]
    · show (Compiler.currentScope _).prev = _
      rw [Compiler.currentScope, hcur]
      simp

theorem cpost_refl (c : Compiler) (hinv : Cinv c) : CPost c c [] := by
  obtain ⟨h1, _h2, h3, h4⟩ := hinv
  exact ⟨rfl, h1, rfl, (List.append_nil _).symm, h3, h4, jumpsBounded_nil _⟩

theorem cinv_of_cpost (c c' : Compiler) (Δ : List Instruction) (hinv : Cinv c)
    (h : CPost c c' Δ) : Cinv c' := by
  obtain ⟨_hs, hne, hst, _ht, hsi, hco, _hj⟩ := h
  refine ⟨hne, ?_, hsi, hco⟩
  intro hnil
  rw [hnil] at hst
  exact hinv.2.1 (List.eq_nil_of_length_eq_zero hst.symm)

theorem cpost_trans (c1 c2 c3 : Compiler) (Δ1 Δ2 : List Instruction)
    (h1 : CPost c1 c2 Δ1) (h2 : CPost c2 c3 Δ2) : CPost c1 c3 (Δ1 ++ Δ2) := by
  obtain ⟨a1, _a2, a3, a4, _a5, _a6, a7⟩ := h1
  obtain ⟨b1, b2, b3, b4, b5, b6, b7⟩ := h2
  refine ⟨b1.trans a1, b2, by rw [b3, a3], by rw [b4, a4, List.append_assoc], b5, b6, ?_⟩
  apply jumpsBounded_append
  · exact jumpsBounded_mono _ _ _ (by have := padLenL_append Δ1 Δ2; omega) a7
  · by_cases hΔ2 : Δ2 = []
    · rw [hΔ2]
      exact jumpsBounded_nil _
    · have he : padLenL (Δ1 ++ Δ2) = byteLenL Δ1 + padLenL Δ2 :=
        padLenL_append_left _ _ hΔ2
      have hb : byteLenL (topData c2) = byteLenL (topData c1) + byteLenL Δ1 := by
        rw [a4, byteLenL_append]
      rw [hb] at b7
      exact jumpsBounded_mono _ _ _ (by have := padLenL_le Δ2; omega) b7

theorem cpost_emit (c : Compiler) (i : Instruction) (hinv : Cinv c)
    (hj1 : i.op ≠ .jump) (hj2 : i.op ≠ .jumpNotTrue)
    (hpop : i.op = .pop → ¬ endsPop (topData c)) :
    CPost c (c.emit i).1 [i] := by
  obtain ⟨hsne, _hstne, ⟨hacc, _hpc⟩, hco⟩ := hinv
  obtain ⟨p1, _p2, p3, p4, p5, p6, p7, p8⟩ := emit_parts c i hsne
  refine ⟨p5, p6, by rw [p4], p1, ⟨?_, ?_⟩, ?_, ?_⟩
  · show _ = lastInfo (topData (c.emit i).1)
    rw [p1, p7, lastInfo_append_one]
  · intro hep
    rw [show (Compiler.currentScope (c.emit i).1).instructions.data
        = topData (c.emit i).1 from rfl, p1] at hep ⊢
    have hip : i.op = .pop := (endsPop_append_one _ _).mp hep
    rw [List.dropLast_concat]
    have hacc2 : c.currentScope.last = lastInfo c.currentScope.instructions.data := hacc
    exact ⟨by rw [p8, hacc2]; rfl, hpop hip⟩
  · intro o ho
    rw [p3] at ho
    exact hco o ho
  · exact jumpsBounded_single_nonjump i _ hj1 hj2

theorem cinv_emit (c : Compiler) (i : Instruction) (hinv : Cinv c)
    (hpop : i.op = .pop → ¬ endsPop (topData c)) : Cinv (c.emit i).1 := by
  obtain ⟨hsne, hstne, ⟨hacc, _hpc⟩, hco⟩ := hinv
  obtain ⟨p1, _p2, p3, p4, p5, p6, p7, p8⟩ := emit_parts c i hsne
  refine ⟨p6, by rw [p4]; exact hstne, ⟨?_, ?_⟩, ?_⟩
  · show _ = lastInfo (topData (c.emit i).1)
    rw [p1, p7, lastInfo_append_one]
  · intro hep
    rw [show (Compiler.currentScope (c.emit i).1).instructions.data
        = topData (c.emit i).1 from rfl, p1] at hep ⊢
    have hip : i.op = .pop := (endsPop_append_one _ _).mp hep
    rw [List.dropLast_concat]
    have hacc2 : c.currentScope.last = lastInfo c.currentScope.instructions.data := hacc
    exact ⟨by rw [p8, hacc2]; rfl, hpop hip⟩
  · intro o ho
    rw [p3] at ho
    exact hco o ho

theorem advance_of_advanceE (c c' : Compiler) (h : AdvanceE c c') : Advance c c' := by
  obtain ⟨Δ, hc, _, _⟩ := h
  exact ⟨Δ, hc⟩

theorem advance_trans (c1 c2 c3 : Compiler) (h1 : Advance c1 c2) (h2 : Advance c2 c3) :
    Advance c1 c3 := by
  obtain ⟨Δ1, hc1⟩ := h1
  obtain ⟨Δ2, hc2⟩ := h2
  exact ⟨Δ1 ++ Δ2, cpost_trans _ _ _ _ _ hc1 hc2⟩

theorem advanceE_seq_emit (c c1 c2 : Compiler) (i : Instruction)
    (h1 : Advance c c1) (h2 : Advance c1 c2) (hinv2 : Cinv c2)
    (hj1 : i.op ≠ .jump) (hj2 : i.op ≠ .jumpNotTrue) (hp : i.op ≠ .pop) :
    AdvanceE c (c2.emit i).1 := by
  obtain ⟨Δ1, hc1⟩ := h1
  obtain ⟨Δ2, hc2⟩ := h2
  have h3 := cpost_emit c2 i hinv2 hj1 hj2 (fun hc => absurd hc hp)
  refine ⟨(Δ1 ++ Δ2) ++ [i],
    cpost_trans _ _ _ _ _ (cpost_trans _ _ _ _ _ hc1 hc2) h3, by simp, ?_⟩
  rw [endsPop_append_one]
  exact hp

theorem advanceE_emit (c : Compiler) (i : Instruction) (hinv : Cinv c)
    (hj1 : i.op ≠ .jump) (hj2 : i.op ≠ .jumpNotTrue) (hp : i.op ≠ .pop) :
    AdvanceE c (c.emit i).1 := by
  have h := advanceE_seq_emit c c c i ⟨[], cpost_refl c hinv⟩ ⟨[], cpost_refl c hinv⟩
    hinv hj1 hj2 hp
  exact h

theorem advance_pop_emit (c c1 : Compiler) (h1 : AdvanceE c c1) (hinv : Cinv c) :
    Advance c ((c1.emit (Instruction.new .pop [])).1) := by
  obtain ⟨Δ1, hc1, hΔne, hΔnp⟩ := h1
  have hinv1 := cinv_of_cpost c c1 Δ1 hinv hc1
  have hpop : ¬ endsPop (topData c1) := by
    rw [hc1.2.2.2.1, endsPop_append_left _ _ hΔne]
    exact hΔnp
  have h3 := cpost_emit c1 (Instruction.new .pop []) hinv1
    (by intro hc; cases hc) (by intro hc; cases hc) (fun _ => hpop)
  exact ⟨Δ1 ++ [Instruction.new .pop []], cpost_trans _ _ _ _ _ hc1 h3⟩

theorem cpost_addConstant (c : Compiler) (o : Object) (hinv : Cinv c) (ho : FuncOk o) :
    CPost c (c.addConstant o).1 [] := by
  obtain ⟨h1, _h2, h3, h4⟩ := hinv
  refine ⟨rfl, h1, rfl, (List.append_nil _).symm, h3, ?_, jumpsBounded_nil _⟩
  intro x hx
  rcases List.mem_append.mp hx with h | h
  · exact h4 x h
  · rw [List.mem_singleton.mp h]
    exact ho

theorem removeLast_state (c : Compiler) (s : Scope) (ss : List Scope) (e : Emmited)
    (hs : c.scopes = s :: ss) (hl : s.last = some e) :
    c.removeLast = { c with scopes :=
      { instructions := s.instructions.removeAt e.pos,
        last := s.prev, prev := s.prev } :: ss } := by
  simp only [Compiler.removeLast, hs, hl]

theorem removeAt_concat (b : Bytes) (pre : List Instruction) (p : Instruction)
    (hd : b.data = pre ++ [p]) : b.removeAt (byteLenL pre) = ⟨pre⟩ := by
  rw [Bytes.removeAt, hd]
  have h2 := removeAux_append pre p []
  rw [h2, List.append_nil]

theorem patchAt_mid (b : Bytes) (A B : List Instruction) (x i : Instruction)
    (hd : b.data = A ++ x :: B) : b.patchAt (byteLenL A) i = ⟨A ++ i :: B⟩ := by
  rw [Bytes.patchAt, hd, patchAux_append]

theorem patch_state (c : Compiler) (s : Scope) (ss : List Scope) (pos : Nat)
    (i : Instruction) (hs : c.scopes = s :: ss) :
    c.patch pos i =
      { c with scopes := { s with instructions := s.instructions.patchAt pos i } :: ss } := by
  rw [Compiler.patch, hs]

theorem lastIs_some (c : Compiler) (e : Emmited) (h : c.currentScope.last = some e)
    (op : OpCode) : c.lastIs op = decide (e.opcode = op) := by
  rw [Compiler.lastIs, h]

theorem lastIs_none (c : Compiler) (h : c.currentScope.last = none) (op : OpCode) :
    c.lastIs op = false := by
  rw [Compiler.lastIs, h]

theorem stDefine_length (st : SymbolTable) (n : String) :
    (stDefine st n).1.length = st.length := by
  cases st with
  | nil => rfl
  | cons f rest => rfl

theorem foldl_stDefine_length (params : List String) (st : SymbolTable) :
    (params.foldl (fun st q => (stDefine st q).1) st).length = st.length := by
  induction params generalizing st with
  | nil => rfl
  | cons p ps ih => rw [List.foldl_cons, ih, stDefine_length]

theorem funcEntry_parts (c : Compiler) (params : List String) :
    (funcEntry c params).scopes = ({} : Scope) :: c.scopes ∧
    (funcEntry c params).symbolTable.length = c.symbolTable.length + 1 ∧
    (funcEntry c params).constants = c.constants := by
  refine ⟨rfl, ?_, rfl⟩
  show (params.foldl _ (Frame.empty :: c.symbolTable)).length = _
  rw [foldl_stDefine_length]
  rfl

theorem scopeInv_empty : ScopeInv ({} : Scope) := by
  constructor
  · rfl
  · intro h
    exact absurd h (by simp [endsPop])

theorem cinv_funcEntry (c : Compiler) (params : List String) (hinv : Cinv c) :
    Cinv (funcEntry c params) := by
  obtain ⟨p1, p2, p3⟩ := funcEntry_parts c params
  refine ⟨by rw [p1]; simp, ?_, ?_, ?_⟩
  · intro hnil
    rw [hnil] at p2
    simp at p2
  · rw [show (funcEntry c params).currentScope = ({} : Scope) from
      currentScope_of_cons _ _ _ p1]
    exact scopeInv_empty
  · intro o ho
    rw [p3] at ho
    exact hinv.2.2.2 o ho

theorem cpost_trans0 (c1 c2 c3 : Compiler) (Δ : List Instruction)
    (h1 : CPost c1 c2 []) (h2 : CPost c2 c3 Δ) : CPost c1 c3 Δ := by
  have h := cpost_trans _ _ _ _ _ h1 h2
  simpa using h

theorem advanceE_trans0 (c1 c2 c3 : Compiler) (h1 : CPost c1 c2 [])
    (h2 : AdvanceE c2 c3) : AdvanceE c1 c3 := by
  obtain ⟨Δ, hcp, hne, hnp⟩ := h2
  exact ⟨Δ, cpost_trans0 _ _ _ _ h1 hcp, hne, hnp⟩

theorem cinv_of_advance (c c' : Compiler) (hinv : Cinv c) (h : Advance c c') :
    Cinv c' := by
  obtain ⟨Δ, hcp⟩ := h
  exact cinv_of_cpost _ _ _ hinv hcp

theorem cinv_of_advanceE (c c' : Compiler) (hinv : Cinv c) (h : AdvanceE c c') :
    Cinv c' := by
  obtain ⟨Δ, hcp, _, _⟩ := h
  exact cinv_of_cpost _ _ _ hinv hcp

theorem compileIdent_post (c c' : Compiler) (n : String) (hinv : Cinv c)
    (h : compileIdent c n = .ok c') : AdvanceE c c' := by
  rw [compileIdent] at h
  cases hr : stResolve c.symbolTable n with
  | none =>
    simp only [hr] at h
    exact absurd h (by simp)
  | some sym =>
    simp only [hr] at h
    cases hsc : sym.scope with
    | global =>
      simp only [hsc] at h
      simp only [Except.ok.injEq] at h
      subst h
      exact advanceE_emit _ _ hinv (by rw [op_new]; decide) (by rw [op_new]; decide)
        (by rw [op_new]; decide)
    | «local» =>
      simp only [hsc] at h
      simp only [Except.ok.injEq] at h
      subst h
      exact advanceE_emit _ _ hinv (by rw [op_new]; decide) (by rw [op_new]; decide)
        (by rw [op_new]; decide)
    | builtin =>
      simp only [hsc] at h
      simp only [Except.ok.injEq] at h
      subst h
      exact advanceE_emit _ _ hinv (by rw [op_new]; decide) (by rw [op_new]; decide)
        (by rw [op_new]; decide)

theorem compileNumber_post (c c' : Compiler) (x : Int) (hinv : Cinv c)
    (h : compileNumber c x = .ok c') : AdvanceE c c' := by
  rw [compileNumber] at h
  simp only [Except.ok.injEq] at h
  subst h
  have h1 : CPost c (c.addConstant (.integer x)).1 [] :=
    cpost_addConstant c _ hinv trivial
  exact advanceE_trans0 _ _ _ h1 (advanceE_emit _ _ (cinv_of_cpost _ _ _ hinv h1)
    (by rw [op_new]; decide) (by rw [op_new]; decide) (by rw [op_new]; decide))

theorem compileString_post (c c' : Compiler) (s : String) (hinv : Cinv c)
    (h : compileString c s = .ok c') : AdvanceE c c' := by
  rw [compileString] at h
  simp only [Except.ok.injEq] at h
  subst h
  have h1 : CPost c (c.addConstant (.string s)).1 [] :=
    cpost_addConstant c _ hinv trivial
  exact advanceE_trans0 _ _ _ h1 (advanceE_emit _ _ (cinv_of_cpost _ _ _ hinv h1)
    (by rw [op_new]; decide) (by rw [op_new]; decide) (by rw [op_new]; decide))

theorem compileBool_post (c c' : Compiler) (b : Bool) (hinv : Cinv c)
    (h : compileBool c b = .ok c') : AdvanceE c c' := by
  cases b with
  | true =>
    simp only [compileBool, Except.ok.injEq] at h
    subst h
    exact advanceE_emit _ _ hinv (by rw [op_new]; decide) (by rw [op_new]; decide)
      (by rw [op_new]; decide)
  | false =>
    simp only [compileBool, Except.ok.injEq] at h
    subst h
    exact advanceE_emit _ _ hinv (by rw [op_new]; decide) (by rw [op_new]; decide)
      (by rw [op_new]; decide)

theorem compileLet_case (c c' : Compiler) (ident : String) (e : Expression)
    (hinv : Cinv c)
    (hrec : ∀ c1, compileExpr c e = .ok c1 → AdvanceE c c1)
    (h : compileLet c ident e = .ok c') : Advance c c' := by
  rw [compileLet] at h
  cases he : compileExpr c e with
  | error err =>
    simp only [he] at h
    exact absurd h (by simp)
  | ok c1 =>
    simp only [he] at h
    have hp1 := hrec c1 he
    have hinv1 : Cinv c1 := cinv_of_advanceE _ _ hinv hp1
    have hc2 : CPost c1 ({ c1 with symbolTable := (stDefine c1.symbolTable ident).1 } : Compiler) [] := by
      obtain ⟨h1, _h2, h3, h4⟩ := hinv1
      exact ⟨rfl, h1,
        by show (stDefine c1.symbolTable ident).1.length = _; rw [stDefine_length],
        (List.append_nil _).symm, h3, h4, jumpsBounded_nil _⟩
    have hinv2 := cinv_of_cpost _ _ _ hinv1 hc2
    cases hsc : (stDefine c1.symbolTable ident).2.scope with
    | global =>
      simp only [hsc] at h
      simp only [Except.ok.injEq] at h
      subst h
      exact advance_trans _ _ _ (advance_of_advanceE _ _ hp1)
        (advance_trans _ _ _ ⟨[], hc2⟩ (advance_of_advanceE _ _
          (advanceE_emit _ _ hinv2 (by rw [op_new]; decide) (by rw [op_new]; decide)
            (by rw [op_new]; decide))))
    | «local» =>
      simp only [hsc] at h
      simp only [Except.ok.injEq] at h
      subst h
      exact advance_trans _ _ _ (advance_of_advanceE _ _ hp1)
        (advance_trans _ _ _ ⟨[], hc2⟩ (advance_of_advanceE _ _
          (advanceE_emit _ _ hinv2 (by rw [op_new]; decide) (by rw [op_new]; decide)
            (by rw [op_new]; decide))))
    | builtin =>
      simp only [hsc] at h
      exact absurd h (by simp)

theorem compileReturnStmt_case (c c' : Compiler) (e : Expression)
    (hinv : Cinv c)
    (hrec : ∀ c1, compileExpr c e = .ok c1 → AdvanceE c c1)
    (h : compileReturnStmt c e = .ok c') : Advance c c' := by
  rw [compileReturnStmt] at h
  cases he : compileExpr c e with
  | error err =>
    simp only [he] at h
    exact absurd h (by simp)
  | ok c1 =>
    simp only [he] at h
    simp only [Except.ok.injEq] at h
    subst h
    have hp1 := hrec c1 he
    exact advance_of_advanceE _ _ (advanceE_seq_emit _ _ _ _
      (advance_of_advanceE _ _ hp1) ⟨[], cpost_refl c1 (cinv_of_advanceE _ _ hinv hp1)⟩
      (cinv_of_advanceE _ _ hinv hp1) (by rw [op_new]; decide) (by rw [op_new]; decide)
      (by rw [op_new]; decide))

theorem compileExprStmt_case (c c' : Compiler) (e : Expression)
    (hinv : Cinv c)
    (hrec : ∀ c1, compileExpr c e = .ok c1 → AdvanceE c c1)
    (h : compileExprStmt c e = .ok c') : Advance c c' := by
  rw [compileExprStmt] at h
  cases he : compileExpr c e with
  | error err =>
    simp only [he] at h
    exact absurd h (by simp)
  | ok c1 =>
    simp only [he] at h
    simp only [Except.ok.injEq] at h
    subst h
    exact advance_pop_emit c c1 (hrec c1 he) hinv

theorem compilePrefixOp_case (c c' : Compiler) (op : TokenType) (right : Expression)
    (hinv : Cinv c)
    (hrec : ∀ c1, compileExpr c right = .ok c1 → AdvanceE c c1)
    (h : compilePrefixOp c op right = .ok c') : AdvanceE c c' := by
  rw [compilePrefixOp] at h
  cases he : compileExpr c right with
  | error err =>
    simp only [he] at h
    exact absurd h (by simp)
  | ok c1 =>
    simp only [he] at h
    have hp1 := hrec c1 he
    have hinv1 : Cinv c1 := cinv_of_advanceE _ _ hinv hp1
    split at h <;>
      first
      | exact Except.noConfusion h
      | (simp only [Except.ok.injEq] at h
         subst h
         exact advanceE_seq_emit _ _ _ _ (advance_of_advanceE _ _ hp1)
           ⟨[], cpost_refl c1 hinv1⟩ hinv1 (by rw [op_new]; decide)
           (by rw [op_new]; decide) (by rw [op_new]; decide))

theorem compileInfixNormal_case (c c' : Compiler) (op : TokenType) (l r : Expression)
    (hinv : Cinv c)
    (hrecL : ∀ c1, compileExpr c l = .ok c1 → AdvanceE c c1)
    (hrecR : ∀ x y : Compiler, Cinv x → compileExpr x r = .ok y → AdvanceE x y)
    (h : compileInfixNormal c op l r = .ok c') : AdvanceE c c' := by
  rw [compileInfixNormal] at h
  cases he : compileExpr c l with
  | error err =>
    simp only [he] at h
    exact absurd h (by simp)
  | ok c1 =>
    simp only [he] at h
    have hp1 := hrecL c1 he
    have hinv1 : Cinv c1 := cinv_of_advanceE _ _ hinv hp1
    cases he2 : compileExpr c1 r with
    | error err =>
      simp only [he2] at h
      exact absurd h (by simp)
    | ok c2 =>
      simp only [he2] at h
      have hp2 := hrecR c1 c2 hinv1 he2
      have hinv2 : Cinv c2 := cinv_of_advanceE _ _ hinv1 hp2
      split at h <;>
        first
        | exact Except.noConfusion h
        | (simp only [Except.ok.injEq] at h
           subst h
           exact advanceE_seq_emit _ _ _ _ (advance_of_advanceE _ _ hp1)
             (advance_of_advanceE _ _ hp2) hinv2 (by rw [op_new]; decide)
             (by rw [op_new]; decide) (by rw [op_new]; decide))

theorem compileInfixRev_case (c c' : Compiler) (op : TokenType) (l r : Expression)
    (hinv : Cinv c)
    (hrecR : ∀ c1, compileExpr c r = .ok c1 → AdvanceE c c1)
    (hrecL : ∀ x y : Compiler, Cinv x → compileExpr x l = .ok y → AdvanceE x y)
    (h : compileInfixRev c op l r = .ok c') : AdvanceE c c' := by
  rw [compileInfixRev] at h
  cases he : compileExpr c r with
  | error err =>
    simp only [he] at h
    exact absurd h (by simp)
  | ok c1 =>
    simp only [he] at h
    have hp1 := hrecR c1 he
    have hinv1 : Cinv c1 := cinv_of_advanceE _ _ hinv hp1
    cases he2 : compileExpr c1 l with
    | error err =>
      simp only [he2] at h
      exact absurd h (by simp)
    | ok c2 =>
      simp only [he2] at h
      have hp2 := hrecL c1 c2 hinv1 he2
      have hinv2 : Cinv c2 := cinv_of_advanceE _ _ hinv1 hp2
      split at h <;>
        first
        | exact Except.noConfusion h
        | (simp only [Except.ok.injEq] at h
           subst h
           exact advanceE_seq_emit _ _ _ _ (advance_of_advanceE _ _ hp1)
             (advance_of_advanceE _ _ hp2) hinv2 (by rw [op_new]; decide)
             (by rw [op_new]; decide) (by rw [op_new]; decide))

theorem compileCall_case (c c' : Compiler) (f : Expression) (arguments : List Expression)
    (hinv : Cinv c)
    (hrecF : ∀ c1, compileExpr c f = .ok c1 → AdvanceE c c1)
    (hrecA : ∀ x y : Compiler, Cinv x → compileExprList x arguments = .ok y → Advance x y)
    (h : compileCall c f arguments = .ok c') : AdvanceE c c' := by
  rw [compileCall] at h
  cases he : compileExpr c f with
  | error err =>
    simp only [he] at h
    exact absurd h (by simp)
  | ok c1 =>
    simp only [he] at h
    have hp1 := hrecF c1 he
    have hinv1 : Cinv c1 := cinv_of_advanceE _ _ hinv hp1
    cases he2 : compileExprList c1 arguments with
    | error err =>
      simp only [he2] at h
      exact absurd h (by simp)
    | ok c2 =>
      simp only [he2] at h
      have hp2 := hrecA c1 c2 hinv1 he2
      have hinv2 : Cinv c2 := cinv_of_advance _ _ hinv1 hp2
      simp only [Except.ok.injEq] at h
      subst h
      exact advanceE_seq_emit _ _ _ _ (advance_of_advanceE _ _ hp1) hp2 hinv2
        (by rw [op_new]; decide) (by rw [op_new]; decide) (by rw [op_new]; decide)

theorem compileArrayExpr_case (c c' : Compiler) (elements : List Expression)
    (hinv : Cinv c)
    (hrec : ∀ c1, compileExprList c elements = .ok c1 → Advance c c1)
    (h : compileArrayExpr c elements = .ok c') : AdvanceE c c' := by
  rw [compileArrayExpr] at h
  cases he : compileExprList c elements with
  | error err =>
    simp only [he] at h
    exact absurd h (by simp)
  | ok c1 =>
    simp only [he] at h
    have hp1 := hrec c1 he
    have hinv1 : Cinv c1 := cinv_of_advance _ _ hinv hp1
    simp only [Except.ok.injEq] at h
    subst h
    exact advanceE_seq_emit _ _ _ _ hp1 ⟨[], cpost_refl c1 hinv1⟩ hinv1
      (by rw [op_new]; decide) (by rw [op_new]; decide) (by rw [op_new]; decide)

theorem compileIndexExpr_case (c c' : Compiler) (l idx : Expression)
    (hinv : Cinv c)
    (hrecL : ∀ c1, compileExpr c l = .ok c1 → AdvanceE c c1)
    (hrecI : ∀ x y : Compiler, Cinv x → compileExpr x idx = .ok y → AdvanceE x y)
    (h : compileIndexExpr c l idx = .ok c') : AdvanceE c c' := by
  rw [compileIndexExpr] at h
  cases he : compileExpr c l with
  | error err =>
    simp only [he] at h
    exact absurd h (by simp)
  | ok c1 =>
    simp only [he] at h
    have hp1 := hrecL c1 he
    have hinv1 : Cinv c1 := cinv_of_advanceE _ _ hinv hp1
    cases he2 : compileExpr c1 idx with
    | error err =>
      simp only [he2] at h
      exact absurd h (by simp)
    | ok c2 =>
      simp only [he2] at h
      have hp2 := hrecI c1 c2 hinv1 he2
      have hinv2 : Cinv c2 := cinv_of_advanceE _ _ hinv1 hp2
      simp only [Except.ok.injEq] at h
      subst h
      exact advanceE_seq_emit _ _ _ _ (advance_of_advanceE _ _ hp1)
        (advance_of_advanceE _ _ hp2) hinv2 (by rw [op_new]; decide)
        (by rw [op_new]; decide) (by rw [op_new]; decide)

theorem compileHashExpr_case (c c' : Compiler) (pairs : List (Expression × Expression))
    (hinv : Cinv c)
    (hrec : ∀ c1, compilePairList c pairs = .ok c1 → Advance c c1)
    (h : compileHashExpr c pairs = .ok c') : AdvanceE c c' := by
  rw [compileHashExpr] at h
  cases he : compilePairList c pairs with
  | error err =>
    simp only [he] at h
    exact absurd h (by simp)
  | ok c1 =>
    simp only [he] at h
    have hp1 := hrec c1 he
    have hinv1 : Cinv c1 := cinv_of_advance _ _ hinv hp1
    simp only [Except.ok.injEq] at h
    subst h
    exact advanceE_seq_emit _ _ _ _ hp1 ⟨[], cpost_refl c1 hinv1⟩ hinv1
      (by rw [op_new]; decide) (by rw [op_new]; decide) (by rw [op_new]; decide)

theorem compileBlockCons_case (c c' : Compiler) (s : Statement) (rest : List Statement)
    (hinv : Cinv c)
    (hrecS : ∀ c1, compileStmt c s = .ok c1 → Advance c c1)
    (hrecR : ∀ x y : Compiler, Cinv x → compileBlock x rest = .ok y → Advance x y)
    (h : compileBlockCons c s rest = .ok c') : Advance c c' := by
  rw [compileBlockCons] at h
  cases he : compileStmt c s with
  | error err =>
    simp only [he] at h
    exact absurd h (by simp)
  | ok c1 =>
    simp only [he] at h
    have hp1 := hrecS c1 he
    exact advance_trans _ _ _ hp1 (hrecR c1 c' (cinv_of_advance _ _ hinv hp1) h)

theorem compileExprListCons_case (c c' : Compiler) (e : Expression) (rest : List Expression)
    (hinv : Cinv c)
    (hrecE : ∀ c1, compileExpr c e = .ok c1 → AdvanceE c c1)
    (hrecR : ∀ x y : Compiler, Cinv x → compileExprList x rest = .ok y → Advance x y)
    (h : compileExprListCons c e rest = .ok c') : Advance c c' := by
  rw [compileExprListCons] at h
  cases he : compileExpr c e with
  | error err =>
    simp only [he] at h
    exact absurd h (by simp)
  | ok c1 =>
    simp only [he] at h
    have hp1 := hrecE c1 he
    exact advance_trans _ _ _ (advance_of_advanceE _ _ hp1)
      (hrecR c1 c' (cinv_of_advanceE _ _ hinv hp1) h)

theorem compilePairListCons_case (c c' : Compiler) (k v : Expression)
    (rest : List (Expression × Expression))
    (hinv : Cinv c)
    (hrecK : ∀ c1, compileExpr c k = .ok c1 → AdvanceE c c1)
    (hrecV : ∀ x y : Compiler, Cinv x → compileExpr x v = .ok y → AdvanceE x y)
    (hrecR : ∀ x y : Compiler, Cinv x → compilePairList x rest = .ok y → Advance x y)
    (h : compilePairListCons c k v rest = .ok c') : Advance c c' := by
  rw [compilePairListCons] at h
  cases he : compileExpr c k with
  | error err =>
    simp only [he] at h
    exact absurd h (by simp)
  | ok c1 =>
    simp only [he] at h
    have hp1 := hrecK c1 he
    have hinv1 : Cinv c1 := cinv_of_advanceE _ _ hinv hp1
    cases he2 : compileExpr c1 v with
    | error err =>
      simp only [he2] at h
      exact absurd h (by simp)
    | ok c2 =>
      simp only [he2] at h
      have hp2 := hrecV c1 c2 hinv1 he2
      exact advance_trans _ _ _ (advance_of_advanceE _ _ hp1)
        (advance_trans _ _ _ (advance_of_advanceE _ _ hp2)
          (hrecR c2 c' (cinv_of_advanceE _ _ hinv1 hp2) h))

theorem compileFuncConst_case (c c' : Compiler) (params : List String)
    (body : List Statement)
    (hinv : Cinv c)
    (hrec : ∀ p, compileFunc c params body = .ok p → FuncPost c p)
    (h : compileFuncConst c params body = .ok c') : AdvanceE c c' := by
  rw [compileFuncConst] at h
  cases he : compileFunc c params body with
  | error err =>
    simp only [he] at h
    exact absurd h (by simp)
  | ok p =>
    simp only [he] at h
    have hp1 := (hrec p he).1
    have hinv1 : Cinv p.1 := cinv_of_cpost _ _ _ hinv hp1
    simp only [Except.ok.injEq] at h
    subst h
    exact advanceE_trans0 _ _ _ hp1 (advanceE_emit _ _ hinv1 (by rw [op_new]; decide)
      (by rw [op_new]; decide) (by rw [op_new]; decide))

theorem byteLenL_cons (i : Instruction) (L : List Instruction) :
    byteLenL (i :: L) = i.size + byteLenL L := by
  simp [byteLenL]

theorem not_endsPop_cons (A D : List Instruction) (y : Instruction) (hy : y.op ≠ .pop)
    (hD : ¬ endsPop D) : ¬ endsPop (A ++ y :: D) := by
  rcases List.eq_nil_or_concat D with h0 | ⟨D0, z, h0⟩
  · subst h0
    rw [show A ++ y :: ([] : List Instruction) = A ++ [y] from rfl, endsPop_append_one]
    exact hy
  · rw [List.concat_eq_append] at h0
    intro hep
    rw [show A ++ y :: D = (A ++ [y]) ++ D from by simp] at hep
    exact hD ((endsPop_append_left _ _ (by rw [h0]; simp)).mp hep)

theorem lastInfo_patch_mid (A D : List Instruction) (x y : Instruction) (hop : x.op = y.op) :
    lastInfo (A ++ y :: D) = lastInfo (A ++ x :: D) := by
  rcases List.eq_nil_or_concat D with h0 | ⟨D0, z, h0⟩
  · subst h0
    rw [show A ++ y :: ([] : List Instruction) = A ++ [y] from rfl,
      show A ++ x :: ([] : List Instruction) = A ++ [x] from rfl,
      lastInfo_append_one, lastInfo_append_one, hop]
  · rw [List.concat_eq_append] at h0
    subst h0
    rw [show A ++ y :: (D0 ++ [z]) = (A ++ y :: D0) ++ [z] from by simp,
      show A ++ x :: (D0 ++ [z]) = (A ++ x :: D0) ++ [z] from by simp,
      lastInfo_append_one, lastInfo_append_one]
    have h1 : byteLenL (A ++ y :: D0) = byteLenL (A ++ x :: D0) := by
      rw [byteLenL_append, byteLenL_append, byteLenL_cons, byteLenL_cons,
        Instruction.size, Instruction.size, hop]
    rw [h1]

theorem patch_parts (c : Compiler) (A B : List Instruction) (x i : Instruction)
    (hd : topData c = A ++ x :: B) (h : c.scopes ≠ []) :
    topData (c.patch (byteLenL A) i) = A ++ i :: B ∧
    (c.patch (byteLenL A) i).scopes.tail = c.scopes.tail ∧
    (c.patch (byteLenL A) i).scopes ≠ [] ∧
    (c.patch (byteLenL A) i).symbolTable = c.symbolTable ∧
    (c.patch (byteLenL A) i).constants = c.constants ∧
    (c.patch (byteLenL A) i).currentScope.last = c.currentScope.last ∧
    (c.patch (byteLenL A) i).currentScope.prev = c.currentScope.prev := by
  cases hs : c.scopes with
  | nil => exact absurd hs h
  | cons s ss =>
    have hcur := currentScope_of_cons c s ss hs
    have hsd : s.instructions.data = A ++ x :: B := by
      rw [← hcur]
      exact hd
    rw [patch_state c s ss (byteLenL A) i hs]
    refine ⟨?_, rfl, by simp, rfl, rfl, by rw [hcur]; rfl, by rw [hcur]; rfl⟩
    show ({ s with instructions := s.instructions.patchAt (byteLenL A) i } : Scope).instructions.data = A ++ i :: B
    rw [patchAt_mid s.instructions A B x i hsd]

theorem lastIs_op_iff (c : Compiler) (hacc : AccL c.currentScope) (op : OpCode) :
    c.lastIs op = true ↔ (topData c).getLast?.map Instruction.op = some op := by
  have hacc2 : c.currentScope.last = lastInfo (topData c) := hacc
  rcases List.eq_nil_or_concat (topData c) with h0 | ⟨L, x, h0⟩
  · rw [lastIs_none c (by rw [hacc2, h0]; rfl) op, h0]
    simp
  · rw [List.concat_eq_append] at h0
    rw [lastIs_some c ⟨x.op, byteLenL L⟩ (by rw [hacc2, h0, lastInfo_append_one]) op, h0,
      List.getLast?_concat]
    simp

theorem removeLast_state2 (c : Compiler) (s : Scope) (ss : List Scope) (op : OpCode)
    (pos : Nat) (hs : c.scopes = s :: ss) (hl : s.last = some ⟨op, pos⟩) :
    c.removeLast = { c with scopes :=
      { instructions := s.instructions.removeAt pos,
        last := s.prev, prev := s.prev } :: ss } := by
  simp only [Compiler.removeLast, hs, hl]

theorem remove_branch (cb : Compiler) (P Δb : List Instruction)
    (hinvb : Cinv cb)
    (htop : topData cb = P ++ Δb)
    (hP : ¬ endsPop P)
    (hjb : JumpsBounded Δb (byteLenL P + padLenL Δb)) :
    ∃ D,
      topData (if cb.lastIs .pop then cb.removeLast else cb) = P ++ D ∧
      ¬ endsPop (P ++ D) ∧
      JumpsBounded D (byteLenL P + byteLenL D) ∧
      (if cb.lastIs .pop then cb.removeLast else cb).scopes.tail = cb.scopes.tail ∧
      (if cb.lastIs .pop then cb.removeLast else cb).scopes ≠ [] ∧
      (if cb.lastIs .pop then cb.removeLast else cb).symbolTable = cb.symbolTable ∧
      (if cb.lastIs .pop then cb.removeLast else cb).constants = cb.constants ∧
      ScopeInv (if cb.lastIs .pop then cb.removeLast else cb).currentScope ∧
      ((D = Δb ∧ ¬ endsPop Δb) ∨ ∃ q, q.op = .pop ∧ Δb = D ++ [q]) := by
  obtain ⟨hsne, _hstne, ⟨hacc, hpc⟩, _hco⟩ := hinvb
  by_cases hep : endsPop (topData cb)
  · -- the buffer ends in a Pop, which is removed
    have hΔne : Δb ≠ [] := by
      intro h0
      rw [h0, List.append_nil] at htop
      rw [htop] at hep
      exact hP hep
    rcases List.eq_nil_or_concat Δb with h0 | ⟨Δb0, p, h0⟩
    · exact absurd h0 hΔne
    rw [List.concat_eq_append] at h0
    have hpop : p.op = .pop := by
      rw [htop, h0, show P ++ (Δb0 ++ [p]) = (P ++ Δb0) ++ [p] from by simp,
        endsPop_append_one] at hep
      exact hep
    have hli : cb.lastIs .pop = true := (lastIs_op_iff cb hacc .pop).mpr hep
    rw [if_pos hli]
    cases hs : cb.scopes with
    | nil => exact absurd hs hsne
    | cons s ss =>
      have hcur := currentScope_of_cons cb s ss hs
      have hsdata : s.instructions.data = (P ++ Δb0) ++ [p] := by
        rw [← hcur]
        show topData cb = _
        rw [htop, h0]
        simp
      have hrec : s.last = some ⟨p.op, byteLenL (P ++ Δb0)⟩ := by
        have h1 : s.last = lastInfo s.instructions.data := by rw [← hcur]; exact hacc
        rw [h1, hsdata, lastInfo_append_one]
      have hprev : s.prev = lastInfo (P ++ Δb0) ∧ ¬ endsPop (P ++ Δb0) := by
        have h2 := hpc (by
          show endsPop cb.currentScope.instructions.data
          rw [hcur, hsdata, endsPop_append_one]
          exact hpop)
        rw [hcur, hsdata, List.dropLast_concat] at h2
        exact h2
      rw [removeLast_state2 cb s ss p.op (byteLenL (P ++ Δb0)) hs hrec]
      have hremeq : s.instructions.removeAt (byteLenL (P ++ Δb0)) = ⟨P ++ Δb0⟩ :=
        removeAt_concat s.instructions (P ++ Δb0) p hsdata
      refine ⟨Δb0, ?_, ?_, ?_, rfl, by simp, rfl, rfl, ⟨?_, ?_⟩, ?_⟩
      · simp only [topData, Compiler.currentScope, List.headD_cons, hremeq]
      · exact hprev.2
      · have hpad : padLenL Δb = byteLenL Δb0 := by
          rw [h0]
          exact padLenL_append_pop Δb0 p hpop
        rw [hpad] at hjb
        exact jumpsBounded_of_sub Δb0 Δb _ (fun i hi => by rw [h0]; exact List.mem_append_left _ hi) hjb
      · simp only [AccL, Compiler.currentScope, List.headD_cons, hremeq]
        exact hprev.1
      · simp only [PopClause, Compiler.currentScope, List.headD_cons, hremeq]
        intro hc
        exact absurd hc hprev.2
      · exact Or.inr ⟨p, hpop, h0⟩
  · -- no trailing Pop: nothing is removed
    have hli : ¬ (cb.lastIs .pop = true) := fun hc => hep ((lastIs_op_iff cb hacc .pop).mp hc)
    rw [if_neg hli]
    refine ⟨Δb, htop, by rw [← htop]; exact hep, ?_, rfl, hsne, rfl, rfl, ⟨hacc, hpc⟩, ?_⟩
    · exact jumpsBounded_mono _ _ _ (by have := padLenL_le Δb; omega) hjb
    · refine Or.inl ⟨rfl, ?_⟩
      rcases List.eq_nil_or_concat Δb with h0 | ⟨Δb0, p, h0⟩
      · rw [h0]
        intro hc
        exact absurd hc (by simp [endsPop])
      · rw [List.concat_eq_append] at h0
        intro hc
        rw [htop] at hep
        exact hep ((endsPop_append_left P Δb (by rw [h0]; simp)).mpr hc)

theorem compileIfElseNone_case (c6 c' : Compiler) (jmpElse : Nat) (A : List Instruction)
    (hinv : Cinv c6)
    (hdecomp : topData c6 = A ++ [Instruction.new .jump [9999]])
    (hpos : jmpElse = byteLenL A)
    (h : compileIfElse c6 jmpElse none = .ok c') : IfElsePost c6 c' A := by
  subst hpos
  obtain ⟨hsne, _hstne, ⟨_hacc, _hpc⟩, hco⟩ := hinv
  obtain ⟨p1, _p2, p3, p4, p5, p6, p7, _p8⟩ := emit_parts c6 Instruction.null hsne
  have hlen : (c6.emit Instruction.null).1.insLen
      = byteLenL A + 3 + byteLenL [Instruction.null] := by
    show byteLenL (topData (c6.emit Instruction.null).1) = _
    rw [p1, hdecomp, byteLenL_concat, byteLenL_concat, byteLenL_singleton,
      size_null, size_jump]
  have hdec2 : topData (c6.emit Instruction.null).1
      = A ++ Instruction.new .jump [9999] :: [Instruction.null] := by
    rw [p1, hdecomp]
    simp
  rw [compileIfElse] at h
  simp only [Except.ok.injEq] at h
  subst h
  obtain ⟨q1, q2, q3, q4, q5, q6, _q7⟩ := patch_parts (c6.emit Instruction.null).1 A
    [Instruction.null] (Instruction.new .jump [9999])
    (Instruction.new .jump [(c6.emit Instruction.null).1.insLen]) hdec2 p6
  have hnp2 : ¬ endsPop
      (Instruction.new .jump [(c6.emit Instruction.null).1.insLen] :: [Instruction.null]) := by
    have hbig := not_endsPop_cons [] [Instruction.null]
      (Instruction.new .jump [(c6.emit Instruction.null).1.insLen])
      (by rw [op_new]; decide)
      (by rw [show ([Instruction.null] : List Instruction) = [] ++ [Instruction.null] from rfl,
        endsPop_append_one]; decide)
    simpa using hbig
  refine ⟨[Instruction.null], ?_, ?_, ?_, ?_, ?_, ?_, ⟨?_, ?_⟩, ?_⟩
  · rw [← hlen]
    exact q1
  · rw [← hlen]
    exact hnp2
  · exact jumpsBounded_single_nonjump _ _ (by decide) (by decide)
  · exact q2.trans p5
  · exact q3
  · rw [q4, p4]
  · show _ = lastInfo _
    rw [q6, p7, show (Compiler.currentScope _).instructions.data = topData
      ((c6.emit Instruction.null).1.patch (byteLenL A)
        (Instruction.new .jump [(c6.emit Instruction.null).1.insLen])) from rfl, q1,
      show A ++ Instruction.new .jump [(c6.emit Instruction.null).1.insLen] :: [Instruction.null]
        = (A ++ [Instruction.new .jump [(c6.emit Instruction.null).1.insLen]]) ++ [Instruction.null]
        from by simp,
      lastInfo_append_one]
    have hb : byteLenL (A ++ [Instruction.new .jump [(c6.emit Instruction.null).1.insLen]])
        = byteLenL (topData c6) := by
      rw [hdecomp, byteLenL_concat, byteLenL_concat, size_jump, size_jump]
    rw [hb]
  · intro hcc
    rw [show (Compiler.currentScope _).instructions.data = topData
      ((c6.emit Instruction.null).1.patch (byteLenL A)
        (Instruction.new .jump [(c6.emit Instruction.null).1.insLen])) from rfl, q1] at hcc
    exact absurd hcc (not_endsPop_cons A [Instruction.null] _ (by rw [op_new]; decide)
      (by rw [show ([Instruction.null] : List Instruction) = [] ++ [Instruction.null] from rfl,
        endsPop_append_one]; decide))
  · intro o ho
    rw [q5, p3] at ho
    exact hco o ho

theorem compileIfElseSome_case (c6 c7 c' : Compiler) (jmpElse : Nat) (A : List Instruction)
    (els : List Statement)
    (hinv : Cinv c6)
    (hdecomp : topData c6 = A ++ [Instruction.new .jump [9999]])
    (hpos : jmpElse = byteLenL A)
    (hb : compileBlock c6 els = .ok c7)
    (hpb : Advance c6 c7)
    (h : compileIfElse c6 jmpElse (some els) = .ok c') : IfElsePost c6 c' A := by
  subst hpos
  obtain ⟨Δe, hcp⟩ := hpb
  have hinv7 : Cinv c7 := cinv_of_cpost _ _ _ hinv hcp
  obtain ⟨e1, _e2, e3, e4, _e5, e6, e7⟩ := hcp
  have hjb : JumpsBounded Δe (byteLenL (A ++ [Instruction.new .jump [9999]]) + padLenL Δe) := by
    rw [← hdecomp]
    exact e7
  have htop7 : topData c7 = (A ++ [Instruction.new .jump [9999]]) ++ Δe := by
    rw [e4, hdecomp]
  obtain ⟨D, r1, r2, r3, r4, r5, r6, r7, r8, _r9⟩ :=
    remove_branch c7 (A ++ [Instruction.new .jump [9999]]) Δe hinv7 htop7
      (by rw [endsPop_append_one]; decide) hjb
  rw [compileIfElse] at h
  simp only [hb, Except.ok.injEq] at h
  subst h
  set cr := if c7.lastIs .pop then c7.removeLast else c7 with hcr
  have hlen : cr.insLen = byteLenL A + 3 + byteLenL D := by
    show byteLenL (topData cr) = _
    rw [r1, byteLenL_append, byteLenL_concat, size_jump]
  have hdec2 : topData cr = A ++ Instruction.new .jump [9999] :: D := by
    rw [r1]
    simp
  obtain ⟨q1, q2, q3, q4, q5, q6, _q7⟩ := patch_parts cr A D
    (Instruction.new .jump [9999]) (Instruction.new .jump [cr.insLen]) hdec2 r5
  have hD : ¬ endsPop D := by
    intro hc
    exact r2 ((endsPop_append_left _ _ (by
      intro h0
      rw [h0] at hc
      exact absurd hc (by simp [endsPop]))).mpr hc)
  refine ⟨D, ?_, ?_, ?_, ?_, ?_, ?_, ⟨?_, ?_⟩, ?_⟩
  · rw [← hlen]
    exact q1
  · rw [← hlen]
    have hbig := not_endsPop_cons [] D (Instruction.new .jump [cr.insLen])
      (by rw [op_new]; decide) hD
    simpa using hbig
  · have r3' := r3
    rw [byteLenL_concat, size_jump] at r3'
    exact r3'
  · exact q2.trans (r4.trans e1)
  · exact q3
  · rw [q4, r6]
    exact e3
  · show _ = lastInfo _
    have hacc' : cr.currentScope.last = lastInfo (topData cr) := r8.1
    rw [q6, hacc', hdec2,
      show (Compiler.currentScope (cr.patch (byteLenL A)
        (Instruction.new .jump [cr.insLen]))).instructions.data
        = topData (cr.patch (byteLenL A) (Instruction.new .jump [cr.insLen])) from rfl, q1]
    exact (lastInfo_patch_mid A D (Instruction.new .jump [9999])
      (Instruction.new .jump [cr.insLen]) rfl).symm
  · intro hcc
    rw [show (Compiler.currentScope (cr.patch (byteLenL A)
      (Instruction.new .jump [cr.insLen]))).instructions.data
      = topData (cr.patch (byteLenL A) (Instruction.new .jump [cr.insLen])) from rfl,
      q1] at hcc
    exact absurd hcc (not_endsPop_cons A D _ (by rw [op_new]; decide) hD)
  · intro o ho
    rw [q5, r7] at ho
    exact e6 o ho

theorem compileIf_case (c c' : Compiler) (cond : Expression) (ifB : List Statement)
    (elseB : Option (List Statement))
    (hinv : Cinv c)
    (hrecC : ∀ c1, compileExpr c cond = .ok c1 → AdvanceE c c1)
    (hrecB : ∀ x y : Compiler, Cinv x → compileBlock x ifB = .ok y → Advance x y)
    (hrecE : ∀ (x y : Compiler) (jmp : Nat) (A : List Instruction), Cinv x →
      topData x = A ++ [Instruction.new .jump [9999]] → jmp = byteLenL A →
      compileIfElse x jmp elseB = .ok y → IfElsePost x y A)
    (h : compileIf c cond ifB elseB = .ok c') : AdvanceE c c' := by
  rw [compileIf] at h
  cases hc : compileExpr c cond with
  | error err =>
    simp only [hc] at h
    exact absurd h (by simp)
  | ok c1 =>
    simp only [hc] at h
    have hp1 := hrecC c1 hc
    have hinv1 := cinv_of_advanceE _ _ hinv hp1
    have hinvq : Cinv (c1.emit (Instruction.new .jumpNotTrue [9999])).1 :=
      cinv_emit c1 _ hinv1 (fun hcp => absurd hcp (by decide))
    cases hb : compileBlock (c1.emit (Instruction.new .jumpNotTrue [9999])).1 ifB with
    | error err =>
      simp only [hb] at h
      exact absurd h (by simp)
    | ok c3 =>
      simp only [hb] at h
      have hpb := hrecB _ c3 hinvq hb
      have hinv3 := cinv_of_advance _ _ hinvq hpb
      obtain ⟨Δc, hcpc, _hΔcne, _hΔcnp⟩ := hp1
      obtain ⟨a1, _a2, a3, a4, _a5, _a6, a7⟩ := hcpc
      obtain ⟨j1, j2, _j3, j4, j5, _j6, _j7, _j8⟩ :=
        emit_parts c1 (Instruction.new .jumpNotTrue [9999]) hinv1.1
      obtain ⟨Δb, hcpb⟩ := hpb
      obtain ⟨b1, _b2, b3, b4, _b5, _b6, b7⟩ := hcpb
      have htop3 : topData c3
          = ((topData c ++ Δc) ++ [Instruction.new .jumpNotTrue [9999]]) ++ Δb := by
        rw [b4, j1, a4]
      have hjb : JumpsBounded Δb
          (byteLenL ((topData c ++ Δc) ++ [Instruction.new .jumpNotTrue [9999]])
            + padLenL Δb) := by
        have hcopy := b7
        rw [j1, a4] at hcopy
        exact hcopy
      obtain ⟨D, r1, _r2, r3, r4, r5, r6, r7, r8, _r9⟩ :=
        remove_branch c3 ((topData c ++ Δc) ++ [Instruction.new .jumpNotTrue [9999]]) Δb
          hinv3 htop3 (by rw [endsPop_append_one]; decide) hjb
      set cr := if c3.lastIs .pop then c3.removeLast else c3 with hcr
      have hinvcr : Cinv cr :=
        ⟨r5, by rw [r6]; exact hinv3.2.1, r8,
          by intro o ho; rw [r7] at ho; exact hinv3.2.2.2 o ho⟩
      obtain ⟨k1, k2, k3, k4, k5, k6, k7, _k8⟩ :=
        emit_parts cr (Instruction.new .jump [9999]) r5
      obtain ⟨t1, ht1⟩ : ∃ t, (cr.emit (Instruction.new .jump [9999])).1.insLen = t :=
        ⟨_, rfl⟩
      have hq2pos : (c1.emit (Instruction.new .jumpNotTrue [9999])).2
          = byteLenL (topData c ++ Δc) := by
        rw [j2, a4]
      rw [hq2pos, ht1] at h
      have hins : t1 = byteLenL (topData c) + byteLenL Δc + 3 + byteLenL D + 3 := by
        rw [← ht1]
        show byteLenL (topData (cr.emit (Instruction.new .jump [9999])).1) = _
        rw [k1, r1]
        simp only [byteLenL_append, byteLenL_singleton, size_jnt, size_jump]
        try omega
      have hdecq2 : topData (cr.emit (Instruction.new .jump [9999])).1
          = (topData c ++ Δc) ++ Instruction.new .jumpNotTrue [9999]
              :: (D ++ [Instruction.new .jump [9999]]) := by
        rw [k1, r1]
        simp
      obtain ⟨q1, q2, q3, q4, q5, q6, _q7⟩ :=
        patch_parts (cr.emit (Instruction.new .jump [9999])).1
          (topData c ++ Δc) (D ++ [Instruction.new .jump [9999]])
          (Instruction.new .jumpNotTrue [9999]) (Instruction.new .jumpNotTrue [t1])
          hdecq2 k6
      obtain ⟨A', hA'⟩ : ∃ L,
          (topData c ++ Δc) ++ [Instruction.new .jumpNotTrue [t1]] ++ D = L := ⟨_, rfl⟩
      have hbA : byteLenL A' = byteLenL (topData c) + byteLenL Δc + 3 + byteLenL D := by
        rw [← hA']
        simp only [byteLenL_append, byteLenL_singleton, size_jnt]
        try omega
      have hdecA : topData ((cr.emit (Instruction.new .jump [9999])).1.patch
          (byteLenL (topData c ++ Δc)) (Instruction.new .jumpNotTrue [t1]))
          = A' ++ [Instruction.new .jump [9999]] := by
        rw [q1, ← hA']
        simp
      have hjmppos : (cr.emit (Instruction.new .jump [9999])).2 = byteLenL A' := by
        rw [k2, r1, hbA]
        simp only [byteLenL_append, byteLenL_singleton, size_jnt]
        try omega
      have hbb : byteLenL (topData cr) = byteLenL A' := by
        rw [← k2]
        exact hjmppos
      have hinv6 : Cinv ((cr.emit (Instruction.new .jump [9999])).1.patch
          (byteLenL (topData c ++ Δc)) (Instruction.new .jumpNotTrue [t1])) := by
        refine ⟨q3, by rw [q4, k4, r6]; exact hinv3.2.1, ⟨?_, ?_⟩, ?_⟩
        · show _ = lastInfo _
          rw [q6, k7,
            show (Compiler.currentScope ((cr.emit (Instruction.new .jump [9999])).1.patch
              (byteLenL (topData c ++ Δc))
              (Instruction.new .jumpNotTrue [t1]))).instructions.data
              = topData ((cr.emit (Instruction.new .jump [9999])).1.patch
                (byteLenL (topData c ++ Δc)) (Instruction.new .jumpNotTrue [t1])) from rfl,
            hdecA, lastInfo_append_one, hbb]
        · intro hcc
          rw [show (Compiler.currentScope ((cr.emit (Instruction.new .jump [9999])).1.patch
              (byteLenL (topData c ++ Δc))
              (Instruction.new .jumpNotTrue [t1]))).instructions.data
              = topData ((cr.emit (Instruction.new .jump [9999])).1.patch
                (byteLenL (topData c ++ Δc)) (Instruction.new .jumpNotTrue [t1])) from rfl,
            hdecA, endsPop_append_one] at hcc
          exact absurd hcc (by decide)
        · intro o ho
          rw [q5, k3, r7] at ho
          exact hinv3.2.2.2 o ho
      have hpost := hrecE _ c' (cr.emit (Instruction.new .jump [9999])).2 A' hinv6 hdecA
        hjmppos h
      obtain ⟨D2, s1, s2, s3, s4, s5, s6, s7, s8⟩ := hpost
      have hnpΔ : ¬ endsPop (Δc ++ Instruction.new .jumpNotTrue [t1]
          :: (D ++ Instruction.new .jump [byteLenL A' + 3 + byteLenL D2] :: D2)) := by
        have h1 : Δc ++ Instruction.new .jumpNotTrue [t1]
            :: (D ++ Instruction.new .jump [byteLenL A' + 3 + byteLenL D2] :: D2)
            = (Δc ++ Instruction.new .jumpNotTrue [t1] :: D)
              ++ (Instruction.new .jump [byteLenL A' + 3 + byteLenL D2] :: D2) := by
          simp
        rw [h1, endsPop_append_left _ _ (by simp)]
        exact s2
      refine ⟨Δc ++ Instruction.new .jumpNotTrue [t1]
        :: (D ++ Instruction.new .jump [byteLenL A' + 3 + byteLenL D2] :: D2),
        ⟨?_, s5, ?_, ?_, s7, s8, ?_⟩, by simp, hnpΔ⟩
      · exact s4.trans (q2.trans (k5.trans (r4.trans (b1.trans (j5.trans a1)))))
      · rw [s6, q4, k4, r6, b3, j4, a3]
      · rw [s1, ← hA']
        simp
      · rw [padLenL_eq_of_not_endsPop _ hnpΔ]
        have hbtot : byteLenL (Δc ++ Instruction.new .jumpNotTrue [t1]
            :: (D ++ Instruction.new .jump [byteLenL A' + 3 + byteLenL D2] :: D2))
            = byteLenL Δc + 3 + byteLenL D + 3 + byteLenL D2 := by
          simp only [byteLenL_append, byteLenL_cons, size_jnt, size_jump]
          try omega
        rw [hbtot]
        have hbP : byteLenL ((topData c ++ Δc) ++ [Instruction.new .jumpNotTrue [9999]])
            = byteLenL (topData c) + byteLenL Δc + 3 := by
          simp only [byteLenL_append, byteLenL_singleton, size_jnt]
          try omega
        intro i hi hopi
        simp only [List.mem_append, List.mem_cons] at hi
        rcases hi with hi | rfl | hi | rfl | hi
        · have hv := a7 i hi hopi
          have hpl := padLenL_le Δc
          omega
        · have he : (Instruction.new .jumpNotTrue [t1]).operands.headD 0 = t1 := rfl
          rw [he, hins]
          omega
        · have hv := r3 i hi hopi
          rw [hbP] at hv
          omega
        · have he : (Instruction.new .jump
            [byteLenL A' + 3 + byteLenL D2]).operands.headD 0
            = byteLenL A' + 3 + byteLenL D2 := rfl
          rw [he, hbA]
          omega
        · have hv := s3 i hi hopi
          rw [hbA] at hv
          omega

theorem leaveScope_ok (c5 : Compiler) (s5 s0 : Scope) (ss0 : List Scope) (f : Frame)
    (t : SymbolTable) (hs : c5.scopes = s5 :: s0 :: ss0) (hst : c5.symbolTable = f :: t)
    (htne : t ≠ []) :
    c5.leaveScope = .ok (s5, { c5 with scopes := s0 :: ss0, symbolTable := t }) := by
  cases t with
  | nil => exact absurd rfl htne
  | cons g u => simp only [Compiler.leaveScope, hst, hs]

theorem funcPost_build (c c5 : Compiler) (s5 : Scope) (t : SymbolTable)
    (nparams locals : Nat)
    (hinv : Cinv c)
    (htlen : t.length = c.symbolTable.length)
    (hcon5 : ConstOk c5)
    (hF1 : s5.instructions.data ≠ []) (hF2 : endsRet s5.instructions.data)
    (hF3 : JumpsBounded s5.instructions.data (byteLenL s5.instructions.data)) :
    FuncPost c (({ c5 with scopes := c.scopes, symbolTable := t } : Compiler).addConstant
      (.compiledFunc s5.instructions locals nparams)) := by
  rw [Compiler.addConstant]
  constructor
  · refine ⟨rfl, hinv.1, htlen, (List.append_nil _).symm, hinv.2.2.1, ?_, jumpsBounded_nil _⟩
    intro o ho
    rcases List.mem_append.mp ho with hh | hh
    · exact hcon5 o hh
    · rw [List.mem_singleton.mp hh]
      exact ⟨hF1, hF2, hF3⟩
  · exact ⟨s5.instructions, locals, nparams, getD_append_len _ _ _, hF1, hF2, hF3⟩

theorem compileFunc_case (c : Compiler) (params : List String) (body : List Statement)
    (p : Compiler × Nat)
    (hinv : Cinv c)
    (hrecB : ∀ x y : Compiler, Cinv x → compileBlock x body = .ok y → Advance x y)
    (h : compileFunc c params body = .ok p) : FuncPost c p := by
  rw [compileFunc] at h
  split at h
  · exact absurd h (by simp)
  · rename_i c3 heq
    simp only [] at h
    have hadv := hrecB _ c3 (show Cinv _ from cinv_funcEntry c params hinv) heq
    obtain ⟨Δb, hcpb⟩ := hadv
    obtain ⟨b1, b2, b3, b4, b5, b6, b7⟩ := hcpb
    have htop3 : topData c3 = Δb := by
      rw [b4]
      show ([] : List Instruction) ++ Δb = Δb
      simp
    have htail3 : c3.scopes.tail = c.scopes := b1
    have hst3 : c3.symbolTable.length = c.symbolTable.length + 1 := by
      rw [b3]
      exact (funcEntry_parts c params).2.1
    have hjb : JumpsBounded Δb (padLenL Δb) := by
      have hcopy : JumpsBounded Δb (byteLenL ([] : List Instruction) + padLenL Δb) := b7
      rw [show byteLenL ([] : List Instruction) = 0 from rfl, Nat.zero_add] at hcopy
      exact hcopy
    cases hs3 : c3.scopes with
    | nil => exact absurd hs3 b2
    | cons s3 ss3 =>
      have hcur3 := currentScope_of_cons c3 s3 ss3 hs3
      have hss3 : ss3 = c.scopes := by
        have hcopy := htail3
        rw [hs3] at hcopy
        exact hcopy
      subst hss3
      cases hcs : c.scopes with
      | nil => exact absurd hcs hinv.1
      | cons s0 ss0 =>
        rw [hcs] at hs3
        cases hst : c3.symbolTable with
        | nil =>
          rw [hst] at hst3
          simp at hst3
        | cons f t0 =>
          cases t0 with
          | nil =>
            rw [hst] at hst3
            simp at hst3
            exact absurd hst3 hinv.2.1
          | cons g u =>
            have htlen : (g :: u).length = c.symbolTable.length := by
              have hcopy := hst3
              rw [hst] at hcopy
              simp at hcopy
              simp [hcopy]
            have hdata3 : s3.instructions.data = Δb := by
              rw [← hcur3]
              exact htop3
            by_cases hli : c3.lastIs .pop = true
            · -- trailing Pop: removed and replaced by ReturnValue
              rw [if_pos hli] at h
              have hep : endsPop (topData c3) := (lastIs_op_iff c3 b5.1 .pop).mp hli
              have hΔne : Δb ≠ [] := by
                intro h0
                rw [htop3, h0] at hep
                exact absurd hep (by simp [endsPop])
              rcases List.eq_nil_or_concat Δb with h0 | ⟨Δb0, qq, h0⟩
              · exact absurd h0 hΔne
              rw [List.concat_eq_append] at h0
              have hqpop : qq.op = .pop := by
                rw [htop3, h0, endsPop_append_one] at hep
                exact hep
              have hdata3' : s3.instructions.data = Δb0 ++ [qq] := by
                rw [hdata3, h0]
              have hrec3 : s3.last = some ⟨qq.op, byteLenL Δb0⟩ := by
                have h1 : s3.last = lastInfo s3.instructions.data := by
                  rw [← hcur3]
                  exact b5.1
                rw [h1, hdata3', lastInfo_append_one]
              rw [removeLast_state2 c3 s3 (s0 :: ss0) qq.op (byteLenL Δb0) hs3 hrec3,
                removeAt_concat s3.instructions Δb0 qq hdata3'] at h
              obtain ⟨RL, hRL⟩ : ∃ X : Compiler, ({ c3 with scopes :=
                  ({ instructions := ⟨Δb0⟩, last := s3.prev, prev := s3.prev } : Scope)
                    :: s0 :: ss0 } : Compiler) = X := ⟨_, rfl⟩
              rw [hRL] at h
              have hRLs : RL.scopes =
                  ({ instructions := ⟨Δb0⟩, last := s3.prev, prev := s3.prev } : Scope)
                    :: s0 :: ss0 := by
                rw [← hRL]
              obtain ⟨_m1, _m2, m3, m4, _m5, _m6, m7, _m8⟩ :=
                emit_parts RL (Instruction.new .returnValue []) (by rw [hRLs]; simp)
              have hli2 : (RL.emit (Instruction.new .returnValue [])).1.lastIs
                  .returnValue = true := by
                rw [lastIs_some _ _ m7]
                rfl
              rw [if_pos hli2] at h
              have hemst := emit_state RL (Instruction.new .returnValue [])
                ({ instructions := ⟨Δb0⟩, last := s3.prev, prev := s3.prev } : Scope)
                (s0 :: ss0) hRLs
              have hC5sym : (RL.emit (Instruction.new .returnValue [])).1.symbolTable
                  = f :: g :: u := by
                rw [m4, ← hRL]
                exact hst
              have hC5scopes : (RL.emit (Instruction.new .returnValue [])).1.scopes
                  = ({ instructions := ⟨Δb0 ++ [Instruction.new .returnValue []]⟩, last := some ⟨OpCode.returnValue, byteLenL Δb0⟩, prev := s3.prev } : Scope) :: s0 :: ss0 := by
                rw [hemst]
                rfl
              have hcon5 : ConstOk (RL.emit (Instruction.new .returnValue [])).1 := by
                intro o ho
                rw [m3, ← hRL] at ho
                exact b6 o ho
              rw [leaveScope_ok (RL.emit (Instruction.new .returnValue [])).1 _ s0 ss0 f
                (g :: u) hC5scopes hC5sym (by simp)] at h
              simp only [Except.ok.injEq] at h
              subst h
              rw [← hcs]
              exact funcPost_build c (RL.emit (Instruction.new .returnValue [])).1
                ({ instructions := ⟨Δb0 ++ [Instruction.new .returnValue []]⟩, last := some ⟨OpCode.returnValue, byteLenL Δb0⟩, prev := s3.prev } : Scope)
                (g :: u) params.length
                (stSymbols (RL.emit (Instruction.new .returnValue [])).1.symbolTable)
                hinv htlen hcon5
                (by simp)
                (by
                  show endsRet (Δb0 ++ [Instruction.new .returnValue []])
                  left
                  rw [List.getLast?_concat]
                  rfl)
                (by
                  show JumpsBounded (Δb0 ++ [Instruction.new .returnValue []])
                    (byteLenL (Δb0 ++ [Instruction.new .returnValue []]))
                  intro i hi hop
                  have hbl : byteLenL (Δb0 ++ [Instruction.new .returnValue []])
                      = byteLenL Δb0 + 1 := by
                    rw [byteLenL_concat]
                    rfl
                  rcases List.mem_append.mp hi with hh | hh
                  · have hv := hjb i (by rw [h0]; exact List.mem_append_left _ hh) hop
                    have hpad : padLenL Δb = byteLenL Δb0 := by
                      rw [h0]
                      exact padLenL_append_pop Δb0 qq hqpop
                    rw [hpad] at hv
                    omega
                  · rw [List.mem_singleton.mp hh] at hop
                    rcases hop with hx | hx <;> exact absurd hx (by decide))
            · rw [if_neg hli] at h
              by_cases hli2 : c3.lastIs .returnValue = true
              · -- the body already ends in ReturnValue
                rw [if_pos hli2] at h
                have hret : (topData c3).getLast?.map Instruction.op
                    = some .returnValue := (lastIs_op_iff c3 b5.1 .returnValue).mp hli2
                have hret' : Δb.getLast?.map Instruction.op = some .returnValue := by
                  rw [← htop3]
                  exact hret
                have hΔne : Δb ≠ [] := by
                  intro h0
                  rw [h0] at hret'
                  simp at hret'
                rw [leaveScope_ok c3 s3 s0 ss0 f (g :: u) hs3 hst (by simp)] at h
                simp only [Except.ok.injEq] at h
                subst h
                rw [← hcs]
                exact funcPost_build c c3 s3 (g :: u) params.length
                  (stSymbols c3.symbolTable) hinv htlen b6
                  (by rw [hdata3]; exact hΔne)
                  (by
                    have he2 : endsRet s3.instructions.data ↔ endsRet Δb := by
                      rw [hdata3]
                    exact he2.mpr (Or.inl hret'))
                  (by
                    rw [hdata3]
                    exact jumpsBounded_mono _ _ _ (padLenL_le Δb) hjb)
              · -- append a bare Return
                rw [if_neg hli2] at h
                obtain ⟨_n1, _n2, n3, n4, _n5, _n6, _n7, _n8⟩ :=
                  emit_parts c3 (Instruction.new .ret []) b2
                have hemst3 := emit_state c3 (Instruction.new .ret []) s3 (s0 :: ss0) hs3
                have hC5sym : (c3.emit (Instruction.new .ret [])).1.symbolTable
                    = f :: g :: u := by
                  rw [n4]
                  exact hst
                have hC5scopes : (c3.emit (Instruction.new .ret [])).1.scopes
                    = ({ instructions := ⟨Δb ++ [Instruction.new .ret []]⟩, last := some ⟨OpCode.ret, byteLenL Δb⟩, prev := s3.last } : Scope) :: s0 :: ss0 := by
                  rw [hemst3, hdata3]
                  rfl
                have hcon5 : ConstOk (c3.emit (Instruction.new .ret [])).1 := by
                  intro o ho
                  rw [n3] at ho
                  exact b6 o ho
                rw [leaveScope_ok (c3.emit (Instruction.new .ret [])).1 _ s0 ss0 f
                  (g :: u) hC5scopes hC5sym (by simp)] at h
                simp only [Except.ok.injEq] at h
                subst h
                rw [← hcs]
                exact funcPost_build c (c3.emit (Instruction.new .ret [])).1
                  ({ instructions := ⟨Δb ++ [Instruction.new .ret []]⟩, last := some ⟨OpCode.ret, byteLenL Δb⟩, prev := s3.last } : Scope)
                  (g :: u) params.length
                  (stSymbols (c3.emit (Instruction.new .ret [])).1.symbolTable)
                  hinv htlen hcon5
                  (by simp)
                  (by
                    show endsRet (Δb ++ [Instruction.new .ret []])
                    right
                    rw [List.getLast?_concat]
                    rfl)
                  (by
                    show JumpsBounded (Δb ++ [Instruction.new .ret []])
                      (byteLenL (Δb ++ [Instruction.new .ret []]))
                    intro i hi hop
                    have hbl : byteLenL (Δb ++ [Instruction.new .ret []])
                        = byteLenL Δb + 1 := by
                      rw [byteLenL_concat]
                      rfl
                    rcases List.mem_append.mp hi with hh | hh
                    · have hv := hjb i hh hop
                      have := padLenL_le Δb
                      omega
                    · rw [List.mem_singleton.mp hh] at hop
                      rcases hop with hx | hx <;> exact absurd hx (by decide))

set_option maxHeartbeats 2000000 in
mutual

theorem compileStmt_post (c : Compiler) (s : Statement) (c' : Compiler)
    (hinv : Cinv c) (h : compileStmt c s = .ok c') : Advance c c' := by
  cases s with
  | letS ident e =>
    rw [compileStmt] at h
    exact compileLet_post c ident e c' hinv h
  | ret e =>
    rw [compileStmt] at h
    exact compileReturnStmt_post c e c' hinv h
  | expr e =>
    rw [compileStmt] at h
    exact compileExprStmt_post c e c' hinv h
termination_by 4 * sizeOf s
decreasing_by all_goals (simp_wf; try subst_vars; try simp_arith)

theorem compileLet_post (c : Compiler) (ident : String) (e : Expression) (c' : Compiler)
    (hinv : Cinv c) (h : compileLet c ident e = .ok c') : Advance c c' :=
  compileLet_case c c' ident e hinv (fun c1 hs => compileExpr_post c e c1 hinv hs) h
termination_by 4 * sizeOf e + 2
decreasing_by all_goals (simp_wf; try subst_vars; try simp_arith)

theorem compileReturnStmt_post (c : Compiler) (e : Expression) (c' : Compiler)
    (hinv : Cinv c) (h : compileReturnStmt c e = .ok c') : Advance c c' :=
  compileReturnStmt_case c c' e hinv (fun c1 hs => compileExpr_post c e c1 hinv hs) h
termination_by 4 * sizeOf e + 2
decreasing_by all_goals (simp_wf; try subst_vars; try simp_arith)

theorem compileExprStmt_post (c : Compiler) (e : Expression) (c' : Compiler)
    (hinv : Cinv c) (h : compileExprStmt c e = .ok c') : Advance c c' :=
  compileExprStmt_case c c' e hinv (fun c1 hs => compileExpr_post c e c1 hinv hs) h
termination_by 4 * sizeOf e + 2
decreasing_by all_goals (simp_wf; try subst_vars; try simp_arith)

theorem compileExpr_post (c : Compiler) (e : Expression) (c' : Compiler)
    (hinv : Cinv c) (h : compileExpr c e = .ok c') : AdvanceE c c' := by
  cases e with
  | ident name =>
    rw [compileExpr] at h
    exact compileIdent_post c c' name hinv h
  | number x =>
    rw [compileExpr] at h
    exact compileNumber_post c c' x hinv h
  | string s =>
    rw [compileExpr] at h
    exact compileString_post c c' s hinv h
  | prefixE op r =>
    rw [compileExpr] at h
    exact compilePrefixOp_post c op r c' hinv h
  | infixE op l r =>
    rw [compileExpr] at h
    exact compileInfixOp_post c op l r c' hinv h
  | bool b =>
    rw [compileExpr] at h
    exact compileBool_post c c' b hinv h
  | ifE cond ifBranch elseBranch =>
    rw [compileExpr] at h
    exact compileIf_post c cond ifBranch elseBranch c' hinv h
  | func params body =>
    rw [compileExpr] at h
    exact compileFuncConst_post c params body c' hinv h
  | call f arguments =>
    rw [compileExpr] at h
    exact compileCall_post c f arguments c' hinv h
  | array elements =>
    rw [compileExpr] at h
    exact compileArrayExpr_post c elements c' hinv h
  | index l idx =>
    rw [compileExpr] at h
    exact compileIndexExpr_post c l idx c' hinv h
  | hash pairs =>
    rw [compileExpr] at h
    exact compileHashExpr_post c pairs c' hinv h
termination_by 4 * sizeOf e
decreasing_by all_goals (simp_wf; try subst_vars; try simp_arith)

theorem compilePrefixOp_post (c : Compiler) (op : TokenType) (right : Expression)
    (c' : Compiler) (hinv : Cinv c) (h : compilePrefixOp c op right = .ok c') :
    AdvanceE c c' :=
  compilePrefixOp_case c c' op right hinv
    (fun c1 hs => compileExpr_post c right c1 hinv hs) h
termination_by 4 * sizeOf right + 1
decreasing_by all_goals (simp_wf; try subst_vars; try simp_arith)

theorem compileInfixOp_post (c : Compiler) (op : TokenType) (l r : Expression)
    (c' : Compiler) (hinv : Cinv c) (h : compileInfixOp c op l r = .ok c') :
    AdvanceE c c' := by
  cases op <;> simp only [compileInfixOp] at h <;>
    first
    | exact compileInfixRev_case c c' _ l r hinv
        (fun c1 hs => compileExpr_post c r c1 hinv hs)
        (fun x y hx hxy => compileExpr_post x l y hx hxy) h
    | exact compileInfixNormal_case c c' _ l r hinv
        (fun c1 hs => compileExpr_post c l c1 hinv hs)
        (fun x y hx hxy => compileExpr_post x r y hx hxy) h
termination_by 4 * (sizeOf l + sizeOf r) + 2
decreasing_by all_goals (simp_wf; try subst_vars; try simp_arith)

theorem compileIf_post (c : Compiler) (cond : Expression) (ifBranch : List Statement)
    (elseBranch : Option (List Statement)) (c' : Compiler) (hinv : Cinv c)
    (h : compileIf c cond ifBranch elseBranch = .ok c') : AdvanceE c c' :=
  compileIf_case c c' cond ifBranch elseBranch hinv
    (fun c1 hs => compileExpr_post c cond c1 hinv hs)
    (fun x y hx hxy => compileBlock_post x ifBranch y hx hxy)
    (fun x y jmp A hx hdx hpx hxy => compileIfElse_post x jmp elseBranch y A hx hdx hpx hxy)
    h
termination_by 4 * (sizeOf cond + sizeOf ifBranch + sizeOf elseBranch) + 2
decreasing_by all_goals (simp_wf; try subst_vars; try simp_arith)

theorem compileIfElse_post (c6 : Compiler) (jmpElse : Nat)
    (elseBranch : Option (List Statement)) (c' : Compiler) (A : List Instruction)
    (hinv : Cinv c6) (hdecomp : topData c6 = A ++ [Instruction.new .jump [9999]])
    (hpos : jmpElse = byteLenL A)
    (h : compileIfElse c6 jmpElse elseBranch = .ok c') : IfElsePost c6 c' A := by
  cases elseBranch with
  | none => exact compileIfElseNone_case c6 c' jmpElse A hinv hdecomp hpos h
  | some els =>
    cases hb : compileBlock c6 els with
    | error err =>
      rw [compileIfElse] at h
      simp only [hb] at h
      exact absurd h (by simp)
    | ok c7 =>
      exact compileIfElseSome_case c6 c7 c' jmpElse A els hinv hdecomp hpos hb
        (compileBlock_post c6 els c7 hinv hb) h
termination_by 4 * sizeOf elseBranch + 1
decreasing_by all_goals (simp_wf; try subst_vars; try simp_arith)

theorem compileFuncConst_post (c : Compiler) (params : List String)
    (body : List Statement) (c' : Compiler) (hinv : Cinv c)
    (h : compileFuncConst c params body = .ok c') : AdvanceE c c' :=
  compileFuncConst_case c c' params body hinv
    (fun pp hs => compileFunc_post c params body pp hinv hs) h
termination_by 4 * sizeOf body + 2
decreasing_by all_goals (simp_wf; try subst_vars; try simp_arith)

theorem compileCall_post (c : Compiler) (f : Expression) (arguments : List Expression)
    (c' : Compiler) (hinv : Cinv c) (h : compileCall c f arguments = .ok c') :
    AdvanceE c c' :=
  compileCall_case c c' f arguments hinv
    (fun c1 hs => compileExpr_post c f c1 hinv hs)
    (fun x y hx hxy => compileExprList_post x arguments y hx hxy) h
termination_by 4 * (sizeOf f + sizeOf arguments) + 2
decreasing_by all_goals (simp_wf; try subst_vars; try simp_arith)

theorem compileArrayExpr_post (c : Compiler) (elements : List Expression)
    (c' : Compiler) (hinv : Cinv c) (h : compileArrayExpr c elements = .ok c') :
    AdvanceE c c' :=
  compileArrayExpr_case c c' elements hinv
    (fun c1 hs => compileExprList_post c elements c1 hinv hs) h
termination_by 4 * sizeOf elements + 2
decreasing_by all_goals (simp_wf; try subst_vars; try simp_arith)

theorem compileIndexExpr_post (c : Compiler) (l idx : Expression) (c' : Compiler)
    (hinv : Cinv c) (h : compileIndexExpr c l idx = .ok c') : AdvanceE c c' :=
  compileIndexExpr_case c c' l idx hinv
    (fun c1 hs => compileExpr_post c l c1 hinv hs)
    (fun x y hx hxy => compileExpr_post x idx y hx hxy) h
termination_by 4 * (sizeOf l + sizeOf idx) + 2
decreasing_by all_goals (simp_wf; try subst_vars; try simp_arith)

theorem compileHashExpr_post (c : Compiler) (pairs : List (Expression × Expression))
    (c' : Compiler) (hinv : Cinv c) (h : compileHashExpr c pairs = .ok c') :
    AdvanceE c c' :=
  compileHashExpr_case c c' pairs hinv
    (fun c1 hs => compilePairList_post c pairs c1 hinv hs) h
termination_by 4 * sizeOf pairs + 2
decreasing_by all_goals (simp_wf; try subst_vars; try simp_arith)

theorem compileBlock_post (c : Compiler) (l : List Statement) (c' : Compiler)
    (hinv : Cinv c) (h : compileBlock c l = .ok c') : Advance c c' := by
  cases l with
  | nil =>
    rw [compileBlock] at h
    simp only [Except.ok.injEq] at h
    subst h
    exact ⟨[], cpost_refl c hinv⟩
  | cons s rest =>
    rw [compileBlock] at h
    exact compileBlockCons_post c s rest c' hinv h
termination_by 4 * sizeOf l
decreasing_by all_goals (simp_wf; try subst_vars; try simp_arith)

theorem compileBlockCons_post (c : Compiler) (s : Statement) (rest : List Statement)
    (c' : Compiler) (hinv : Cinv c) (h : compileBlockCons c s rest = .ok c') :
    Advance c c' :=
  compileBlockCons_case c c' s rest hinv
    (fun c1 hs => compileStmt_post c s c1 hinv hs)
    (fun x y hx hxy => compileBlock_post x rest y hx hxy) h
termination_by 4 * (sizeOf s + sizeOf rest) + 2
decreasing_by all_goals (simp_wf; try subst_vars; try simp_arith)

theorem compileExprList_post (c : Compiler) (l : List Expression) (c' : Compiler)
    (hinv : Cinv c) (h : compileExprList c l = .ok c') : Advance c c' := by
  cases l with
  | nil =>
    rw [compileExprList] at h
    simp only [Except.ok.injEq] at h
    subst h
    exact ⟨[], cpost_refl c hinv⟩
  | cons e rest =>
    rw [compileExprList] at h
    exact compileExprListCons_post c e rest c' hinv h
termination_by 4 * sizeOf l
decreasing_by all_goals (simp_wf; try subst_vars; try simp_arith)

theorem compileExprListCons_post (c : Compiler) (e : Expression)
    (rest : List Expression) (c' : Compiler) (hinv : Cinv c)
    (h : compileExprListCons c e rest = .ok c') : Advance c c' :=
  compileExprListCons_case c c' e rest hinv
    (fun c1 hs => compileExpr_post c e c1 hinv hs)
    (fun x y hx hxy => compileExprList_post x rest y hx hxy) h
termination_by 4 * (sizeOf e + sizeOf rest) + 2
decreasing_by all_goals (simp_wf; try subst_vars; try simp_arith)

theorem compilePairList_post (c : Compiler) (l : List (Expression × Expression))
    (c' : Compiler) (hinv : Cinv c) (h : compilePairList c l = .ok c') :
    Advance c c' := by
  cases l with
  | nil =>
    rw [compilePairList] at h
    simp only [Except.ok.injEq] at h
    subst h
    exact ⟨[], cpost_refl c hinv⟩
  | cons kv rest =>
    cases hkv : kv with
    | mk k v =>
      rw [hkv, compilePairList] at h
      exact compilePairListCons_post c k v rest c' hinv h
termination_by 4 * sizeOf l
decreasing_by all_goals (simp_wf; try subst_vars; try simp_arith)

theorem compilePairListCons_post (c : Compiler) (k v : Expression)
    (rest : List (Expression × Expression)) (c' : Compiler) (hinv : Cinv c)
    (h : compilePairListCons c k v rest = .ok c') : Advance c c' :=
  compilePairListCons_case c c' k v rest hinv
    (fun c1 hs => compileExpr_post c k c1 hinv hs)
    (fun x y hx hxy => compileExpr_post x v y hx hxy)
    (fun x y hx hxy => compilePairList_post x rest y hx hxy) h
termination_by 4 * (sizeOf k + sizeOf v + sizeOf rest) + 2
decreasing_by all_goals (simp_wf; try subst_vars; try simp_arith)

theorem compileFunc_post (c : Compiler) (params : List String) (body : List Statement)
    (p : Compiler × Nat) (hinv : Cinv c) (h : compileFunc c params body = .ok p) :
    FuncPost c p :=
  compileFunc_case c params body p hinv
    (fun x y hx hxy => compileBlock_post x body y hx hxy) h
termination_by 4 * sizeOf body + 1
decreasing_by all_goals (simp_wf; try subst_vars; try simp_arith)

end

theorem cinv_default : Cinv Compiler.default := by
  refine ⟨by simp [Compiler.default], ?_, ?_, ?_⟩
  · show Compiler.default.symbolTable ≠ []
    simp [Compiler.default, stDefineBuiltin, Frame.empty]
  · have hc : Compiler.default.currentScope = ({} : Scope) := rfl
    rw [hc]
    exact scopeInv_empty
  · intro o ho
    have hco : Compiler.default.constants = [Object.null] := rfl
    rw [hco, List.mem_singleton] at ho
    rw [ho]
    trivial

theorem compileIfElseNone_shape (c6 c' : Compiler) (A : List Instruction)
    (hsne : c6.scopes ≠ [])
    (hdecomp : topData c6 = A ++ [Instruction.new .jump [9999]])
    (h : compileIfElse c6 (byteLenL A) none = .ok c') :
    topData c' = A ++ Instruction.new .jump [byteLenL A + 6] :: [Instruction.null] := by
  obtain ⟨p1, _p2, _p3, _p4, _p5, p6, _p7, _p8⟩ := emit_parts c6 Instruction.null hsne
  have hdec2 : topData (c6.emit Instruction.null).1
      = A ++ Instruction.new .jump [9999] :: [Instruction.null] := by
    rw [p1, hdecomp]
    simp
  have hlen : (c6.emit Instruction.null).1.insLen = byteLenL A + 6 := by
    show byteLenL (topData (c6.emit Instruction.null).1) = _
    rw [p1, hdecomp, byteLenL_concat, byteLenL_concat, size_null, size_jump]
  rw [compileIfElse] at h
  simp only [Except.ok.injEq] at h
  subst h
  obtain ⟨q1, _q2, _q3, _q4, _q5, _q6, _q7⟩ := patch_parts (c6.emit Instruction.null).1 A
    [Instruction.null] (Instruction.new .jump [9999])
    (Instruction.new .jump [(c6.emit Instruction.null).1.insLen]) hdec2 p6
  rw [q1, hlen]

/-- **C5.** For every `if`-expression without an `else` branch, the compiler
emits the condition code `Δc`, a `JumpNotTrue`, the then-block code with a
trailing `Pop` removed if one was present (`D` versus the raw block code
`Δb`), a `Jump`, and the sentinel `Constant 0` that loads `Null`; the
`JumpNotTrue` operand is the byte offset just after the `Jump`, and the
`Jump` operand is the byte offset just after the sentinel. -/
theorem C5_if_without_else_emits_sentinel (c c' : Compiler) (cond : Expression)
    (ifB : List Statement) (hinv : Cinv c)
    (h : compileExpr c (Expression.ifE cond ifB none) = .ok c') :
    ∃ c1 c3 Δc Δb D,
      compileExpr c cond = .ok c1 ∧
      topData c1 = topData c ++ Δc ∧
      compileBlock (c1.emit (Instruction.new .jumpNotTrue [9999])).1 ifB = .ok c3 ∧
      topData c3 = topData c ++ Δc ++ Instruction.new .jumpNotTrue [9999] :: Δb ∧
      ((D = Δb ∧ ¬ endsPop Δb) ∨ ∃ q, q.op = .pop ∧ Δb = D ++ [q]) ∧
      topData c' = topData c ++ Δc
        ++ Instruction.new .jumpNotTrue
            [byteLenL (topData c) + byteLenL Δc + 3 + byteLenL D + 3]
          :: (D ++ [Instruction.new .jump
              [byteLenL (topData c) + byteLenL Δc + 3 + byteLenL D + 6],
            Instruction.new .constant [0]]) := by
  rw [compileExpr] at h
  rw [compileIf] at h
  cases hc : compileExpr c cond with
  | error err =>
    simp only [hc] at h
    exact absurd h (by simp)
  | ok c1 =>
    simp only [hc] at h
    have hp1 := compileExpr_post c cond c1 hinv hc
    have hinv1 := cinv_of_advanceE _ _ hinv hp1
    have hinvq : Cinv (c1.emit (Instruction.new .jumpNotTrue [9999])).1 :=
      cinv_emit c1 _ hinv1 (fun hcp => absurd hcp (by decide))
    cases hb : compileBlock (c1.emit (Instruction.new .jumpNotTrue [9999])).1 ifB with
    | error err =>
      simp only [hb] at h
      exact absurd h (by simp)
    | ok c3 =>
      simp only [hb] at h
      have hpb := compileBlock_post _ ifB c3 hinvq hb
      have hinv3 := cinv_of_advance _ _ hinvq hpb
      obtain ⟨Δc, hcpc, _hΔcne, _hΔcnp⟩ := hp1
      obtain ⟨a1, _a2, a3, a4, _a5, _a6, a7⟩ := hcpc
      obtain ⟨j1, j2, _j3, j4, j5, _j6, _j7, _j8⟩ :=
        emit_parts c1 (Instruction.new .jumpNotTrue [9999]) hinv1.1
      obtain ⟨Δb, hcpb⟩ := hpb
      obtain ⟨b1, _b2, b3, b4, _b5, _b6, b7⟩ := hcpb
      have htop3 : topData c3
          = ((topData c ++ Δc) ++ [Instruction.new .jumpNotTrue [9999]]) ++ Δb := by
        rw [b4, j1, a4]
      have hjb : JumpsBounded Δb
          (byteLenL ((topData c ++ Δc) ++ [Instruction.new .jumpNotTrue [9999]])
            + padLenL Δb) := by
        have hcopy := b7
        rw [j1, a4] at hcopy
        exact hcopy
      obtain ⟨D, r1, _r2, _r3, _r4, r5, _r6, _r7, _r8, r9⟩ :=
        remove_branch c3 ((topData c ++ Δc) ++ [Instruction.new .jumpNotTrue [9999]]) Δb
          hinv3 htop3 (by rw [endsPop_append_one]; decide) hjb
      set cr := if c3.lastIs .pop then c3.removeLast else c3 with hcr
      have hinvcr : Cinv cr :=
        ⟨r5, by rw [_r6]; exact hinv3.2.1, _r8,
          by intro o ho; rw [_r7] at ho; exact hinv3.2.2.2 o ho⟩
      obtain ⟨k1, k2, _k3, k4, _k5, k6, _k7, _k8⟩ :=
        emit_parts cr (Instruction.new .jump [9999]) r5
      obtain ⟨t1, ht1⟩ : ∃ t, (cr.emit (Instruction.new .jump [9999])).1.insLen = t :=
        ⟨_, rfl⟩
      have hq2pos : (c1.emit (Instruction.new .jumpNotTrue [9999])).2
          = byteLenL (topData c ++ Δc) := by
        rw [j2, a4]
      rw [hq2pos, ht1] at h
      have hins : t1 = byteLenL (topData c) + byteLenL Δc + 3 + byteLenL D + 3 := by
        rw [← ht1]
        show byteLenL (topData (cr.emit (Instruction.new .jump [9999])).1) = _
        rw [k1, r1]
        simp only [byteLenL_append, byteLenL_singleton, size_jnt, size_jump]
        try omega
      have hdecq2 : topData (cr.emit (Instruction.new .jump [9999])).1
          = (topData c ++ Δc) ++ Instruction.new .jumpNotTrue [9999]
              :: (D ++ [Instruction.new .jump [9999]]) := by
        rw [k1, r1]
        simp
      obtain ⟨q1, _q2, q3, _q4, _q5, q6, _q7⟩ :=
        patch_parts (cr.emit (Instruction.new .jump [9999])).1
          (topData c ++ Δc) (D ++ [Instruction.new .jump [9999]])
          (Instruction.new .jumpNotTrue [9999]) (Instruction.new .jumpNotTrue [t1])
          hdecq2 k6
      obtain ⟨A', hA'⟩ : ∃ L,
          (topData c ++ Δc) ++ [Instruction.new .jumpNotTrue [t1]] ++ D = L := ⟨_, rfl⟩
      have hbA : byteLenL A' = byteLenL (topData c) + byteLenL Δc + 3 + byteLenL D := by
        rw [← hA']
        simp only [byteLenL_append, byteLenL_singleton, size_jnt]
        try omega
      have hdecA : topData ((cr.emit (Instruction.new .jump [9999])).1.patch
          (byteLenL (topData c ++ Δc)) (Instruction.new .jumpNotTrue [t1]))
          = A' ++ [Instruction.new .jump [9999]] := by
        rw [q1, ← hA']
        simp
      have hjmppos : (cr.emit (Instruction.new .jump [9999])).2 = byteLenL A' := by
        rw [k2, r1, hbA]
        simp only [byteLenL_append, byteLenL_singleton, size_jnt]
        try omega
      rw [hjmppos] at h
      have hfin := compileIfElseNone_shape _ c' A' q3 hdecA h
      refine ⟨c1, c3, Δc, Δb, D, rfl, a4, hb, by rw [htop3]; simp, r9, ?_⟩
      rw [hfin, hbA, ← hA', hins]
      simp [Instruction.null, Instruction.new]

/-- **C7.** Every function literal that compiles successfully stores a
`CompiledFunc` constant whose instruction stream is non-empty and whose
final instruction is `ReturnValue` or `Return`. -/
theorem C7_compiled_func_ends_in_return (c : Compiler) (params : List String)
    (body : List Statement) (p : Compiler × Nat)
    (hinv : Cinv c) (h : compileFunc c params body = .ok p) :
    ∃ ins locals nparams,
      p.1.constants.getD p.2 Object.null = Object.compiledFunc ins locals nparams ∧
      ins.data ≠ [] ∧ endsRet ins.data := by
  obtain ⟨_hcp, ins, locals, nparams, h1, h2, h3, _h4⟩ :=
    compileFunc_post c params body p hinv h
  exact ⟨ins, locals, nparams, h1, h2, h3⟩

/-- **C8.** For every program that compiles successfully, every `Jump` and
`JumpNotTrue` operand in the emitted bytecode is at most the byte length of
its enclosing instruction stream: this holds of the top-level stream and,
through `FuncOk`, of the stream inside every `CompiledFunc` constant. -/
theorem C8_jump_operands_within_stream (p : Program) (b : Bytecode)
    (h : compileProgram p = .ok b) :
    JumpsBounded b.instructions.data (byteLenL b.instructions.data) ∧
    ∀ o ∈ b.constants, FuncOk o := by
  rw [compileProgram] at h
  cases hc : Compiler.default.compile p with
  | error e =>
    rw [hc] at h
    exact absurd h (by simp)
  | ok cf =>
    rw [hc] at h
    simp only [Except.ok.injEq] at h
    subst h
    rw [Compiler.compile] at hc
    obtain ⟨Δ, _d1, _d2, _d3, d4, _d5, d6, d7⟩ :=
      compileBlock_post Compiler.default p.statements cf cinv_default hc
    have hdata : cf.bytecode.instructions.data = Δ := by
      show topData cf = Δ
      rw [d4]
      show topData Compiler.default ++ Δ = Δ
      simp [topData, Compiler.default, Compiler.currentScope]
    have hjb : JumpsBounded Δ (padLenL Δ) := by
      have hcopy := d7
      rw [show byteLenL (topData Compiler.default) = 0 from rfl, Nat.zero_add] at hcopy
      exact hcopy
    constructor
    · rw [hdata]
      exact jumpsBounded_mono _ _ _ (padLenL_le Δ) hjb
    · intro o ho
      exact d6 o ho

/-- The compiled `if`-expression of the C5 witness: `if (true) { 10 }`
compiled on the fresh default compiler. -/
theorem C5_witness :
    ∃ c', compileExpr Compiler.default
        (Expression.ifE (.bool true) [Statement.expr (.number 10)] none) = .ok c' ∧
      ∃ c1 c3 Δc Δb D,
        compileExpr Compiler.default (Expression.bool true) = .ok c1 ∧
        topData c1 = topData Compiler.default ++ Δc ∧
        compileBlock (c1.emit (Instruction.new .jumpNotTrue [9999])).1
          [Statement.expr (.number 10)] = .ok c3 ∧
        topData c3 = topData Compiler.default ++ Δc
          ++ Instruction.new .jumpNotTrue [9999] :: Δb ∧
        ((D = Δb ∧ ¬ endsPop Δb) ∨ ∃ q, q.op = .pop ∧ Δb = D ++ [q]) ∧
        topData c' = topData Compiler.default ++ Δc
          ++ Instruction.new .jumpNotTrue
              [byteLenL (topData Compiler.default) + byteLenL Δc + 3 + byteLenL D + 3]
            :: (D ++ [Instruction.new .jump
                [byteLenL (topData Compiler.default) + byteLenL Δc + 3 + byteLenL D + 6],
              Instruction.new .constant [0]]) := by
  cases hc : compileExpr Compiler.default
      (Expression.ifE (.bool true) [Statement.expr (.number 10)] none) with
  | error e =>
    exact absurd hc (by
      simp [compileExpr, compileIf, compileIfElse, compileBool,
        compileNumber, compileBlock, compileBlockCons, compileStmt, compileExprStmt,
        Compiler.default, Compiler.emit, Compiler.addConstant, Compiler.lastIs,
        Compiler.removeLast, Compiler.patch, Compiler.insLen, Compiler.currentScope,
        Bytes.patchAt, Bytes.removeAt, Bytes.len, patchAux, removeAux, byteLenL,
        Instruction.size, Instruction.new, Instruction.null, OpCode.width, Bytes.push,
        stDefineBuiltin, Frame.empty])
  | ok c' =>
    exact ⟨c', rfl, C5_if_without_else_emits_sentinel Compiler.default c'
      (.bool true) [Statement.expr (.number 10)] cinv_default hc⟩

/-- The C7 witness: the function literal `fn() { 1 }` compiled on the fresh
default compiler produces a `CompiledFunc` ending in a return. -/
theorem C7_witness :
    ∃ p, compileFunc Compiler.default [] [Statement.expr (.number 1)] = .ok p ∧
      ∃ ins locals nparams,
        p.1.constants.getD p.2 Object.null = Object.compiledFunc ins locals nparams ∧
        ins.data ≠ [] ∧ endsRet ins.data := by
  cases hc : compileFunc Compiler.default [] [Statement.expr (.number 1)] with
  | error e =>
    exact absurd hc (by
      simp [compileFunc, Compiler.enterScope, Compiler.leaveScope, stDefine, stSymbols,
        compileBlock, compileBlockCons, compileStmt, compileExprStmt, compileExpr,
        compileNumber, Compiler.default, Compiler.emit, Compiler.addConstant,
        Compiler.lastIs, Compiler.removeLast, Compiler.currentScope,
        Bytes.removeAt, Bytes.len, removeAux, byteLenL,
        Instruction.size, Instruction.new, OpCode.width, Bytes.push,
        stDefineBuiltin, Frame.empty, Frame.numDefs])
  | ok p =>
    exact ⟨p, rfl, C7_compiled_func_ends_in_return Compiler.default []
      [Statement.expr (.number 1)] p cinv_default hc⟩

/-- The C8 witness: a program with an `if`-expression and a function literal
compiles to bytecode whose jump operands all stay within their stream. -/
theorem C8_witness :
    ∃ b, compileProgram ⟨[.expr (.ifE (.bool true) [.expr (.number 10)] none),
        .expr (.func [] [.expr (.number 1)])]⟩ = .ok b ∧
      JumpsBounded b.instructions.data (byteLenL b.instructions.data) ∧
      ∀ o ∈ b.constants, FuncOk o := by
  cases hc : compileProgram ⟨[.expr (.ifE (.bool true) [.expr (.number 10)] none),
      .expr (.func [] [.expr (.number 1)])]⟩ with
  | error e =>
    exact absurd hc (by
      simp [compileProgram, Compiler.compile, compileFunc, Compiler.enterScope,
        Compiler.leaveScope, stDefine, stSymbols, compileFuncConst,
        compileBlock, compileBlockCons, compileStmt, compileExprStmt, compileExpr,
        compileNumber, compileIf, compileIfElse, compileBool,
        Compiler.default, Compiler.emit, Compiler.addConstant,
        Compiler.lastIs, Compiler.removeLast, Compiler.patch, Compiler.insLen,
        Compiler.currentScope, Compiler.bytecode,
        Bytes.patchAt, Bytes.removeAt, Bytes.len, patchAux, removeAux, byteLenL,
        Instruction.size, Instruction.new, Instruction.null, OpCode.width, Bytes.push,
        stDefineBuiltin, Frame.empty, Frame.numDefs])
  | ok b =>
    exact ⟨b, rfl, C8_jump_operands_within_stream _ b hc⟩

end Monkey
